import Mathlib

/-!
# FakeTimers: a shallow embedding of `cms::test::FakeTimers` (FakeTimers.hpp)

The C++ class under study is a virtual-time software-timer engine:
a vector of timer slots (`mTimers`), a fixed sys-tick quantum
(`mSysTickPeriod`), a virtual clock (`mCurrent`), and a FIFO queue of
pended function calls (`mPendQueue`).  `MoveTimeForward` first drains the
pend queue (`ExecutePendables`), then steps the clock by
`min(remaining, quantum)` and sweeps every slot (`ConsiderFiringTimer`)
after each step.

Modelling conventions:
 * `Duration` (`std::chrono::nanoseconds`, an `int64` count) is `Int`;
   the source explicitly ignores overflow, and no claim concerns it.
 * `Handle` (`uint32_t`) is `Nat`; the only place the C++ unsigned
   wrap-around of `handle - 1` matters is `mTimers.at(handle - 1)` with
   `handle = 0`, which `uidx` reproduces exactly.
 * Opaque pointers (`const char *` names, `void *` contexts) are `Nat`
   tags, never inspected by the engine.
 * `std::function` callbacks stored in timers and pendables cannot be
   embedded as raw Lean functions over the engine state (negative
   occurrence); they are modelled by small action languages `CbAct` and
   `PendAct` covering exactly the behaviours the verified properties
   exercise: a null `std::function`, a pure callback that only records
   its invocation, a timer callback that calls `TimerStop` on its own
   handle, and a pendable that pends another (pure) function call.
 * Operations that can abort (a failed `assert`, an `at()` throw, or the
   infinite loop of `MoveTimeForward` when the quantum is non-positive)
   return `Option`: `none` is the abort/divergence outcome.
 * Every observable invocation (timer callback, pended function) is
   recorded in an event trace, in invocation order.
-/

set_option autoImplicit false

namespace FakeTimers

/-- `FakeTimers::Behavior`. -/
inductive Behavior where
  | SingleShot
  | AutoReload
deriving DecidableEq

/-- Model of the `Callback` (`std::function<void(Handle, Context)>`)
values stored in timer slots: the null function, a pure callback that
only records its invocation, or a callback that calls
`TimerStop(handle)` on the handle it received. -/
inductive CbAct where
  | null
  | record
  | stopSelf
deriving DecidableEq

/-- Model of the `Pendable` (`std::function<void(Context, uint32_t)>`)
values stored in the pend queue: the null function, a pure function that
only records its invocation (distinguished by `tag`), or a function that
additionally calls `PendFunctionCall` with a pure pendable
`(record innerTag, innerCtx, innerParam)`. -/
inductive PendAct where
  | null
  | record (tag : Nat)
  | pendAnother (tag innerTag innerCtx innerParam : Nat)
deriving DecidableEq

/-- The private `struct Timer`, default field values as in the C++
in-class initializers (`Timer()` is this default). -/
structure Timer where
  name : Nat := 0
  period : Int := 0
  behavior : Behavior := Behavior.SingleShot
  context : Nat := 0
  callback : CbAct := CbAct.null
  handle : Nat := 0
  allocated : Bool := false
  next : Int := 0
deriving DecidableEq

instance : Inhabited Timer := ⟨{}⟩

/-- The private `struct InternalPendable`. -/
structure InternalPendable where
  func : PendAct
  context : Nat
  param2 : Nat
deriving DecidableEq

/-- An observable invocation: a timer callback firing with
`(handle, context)`, or a pended function called with
`(context, param2)` (`tag` identifies which pendable). -/
inductive Event where
  | timerFired (handle : Nat) (context : Nat)
  | pendCalled (tag context param2 : Nat)
deriving DecidableEq

/-- The engine state: `mTimers`, `mSysTickPeriod`, `mCurrent`,
`mPendQueue` (front of the queue at the head of the list). -/
structure FT where
  timers : List Timer
  sysTickPeriod : Int
  current : Int
  pendQueue : List InternalPendable
deriving DecidableEq

/-- The constructor `FakeTimers(sysTickPeriod)`: 25 default slots,
clock at zero, empty queue. -/
def FT.mk0 (sysTickPeriod : Int) : FT :=
  { timers := List.replicate 25 {}
    sysTickPeriod := sysTickPeriod
    current := 0
    pendQueue := [] }

/-- The index computed by the C++ expression `handle - 1` at type
`uint32_t`: unsigned wrap-around for `handle = 0`.  For every value the
`uint32_t` handle can take (`handle < 2^32`) this agrees with
`(handle + 2^32 - 1) % 2^32`. -/
def uidx (handle : Nat) : Nat :=
  if handle = 0 then 2 ^ 32 - 1 else handle - 1

/-- `FakeTimers::FindAvailableTimer`: index of the first unallocated
slot, growing the vector by one default slot when none is free.
Returns the chosen index and the (possibly grown) vector. -/
def findAvailableTimer (ts : List Timer) : Nat × List Timer :=
  match ts.findIdx? (fun t => !t.allocated) with
  | some i => (i, ts)
  | none => (ts.length, ts ++ [{}])

/-- `FakeTimers::TimerCreate`.  Returns the handle (0 on error) and the
new state.  The period check mirrors the source: `period <= 0ms` returns
`false` (which converts to handle 0), then
`period.count() % mSysTickPeriod.count() != 0` returns 0; `Int.tmod` is
C++ truncated `%`. -/
def TimerCreate (s : FT) (timerName : Nat) (period : Int)
    (behavior : Behavior) (context : Nat) (callback : CbAct) :
    Nat × FT :=
  if period ≤ 0 then (0, s)
  else if period.tmod s.sysTickPeriod ≠ 0 then (0, s)
  else
    let p := findAvailableTimer s.timers
    let newTimer : Timer :=
      { name := timerName
        period := period
        behavior := behavior
        context := context
        callback := callback
        handle := p.1 + 1
        allocated := true
        next := 0 }
    (p.1 + 1, { s with timers := p.2.set p.1 newTimer })

/-- `FakeTimers::TimerDelete`: bounds checks, then resets the slot to
`Timer()`. -/
def TimerDelete (s : FT) (handle : Nat) : Bool × FT :=
  if s.timers.length < handle then (false, s)
  else if handle = 0 then (false, s)
  else (true, { s with timers := s.timers.set (handle - 1) {} })

/-- `FakeTimers::TimerStart`: bounds checks, then
`assert(timer.handle == handle)` (modelled as `none` when it fails),
then `timer.next = mCurrent + timer.period`. -/
def TimerStart (s : FT) (handle : Nat) : Option (Bool × FT) :=
  if s.timers.length < handle then some (false, s)
  else if handle = 0 then some (false, s)
  else
    match s.timers[uidx handle]? with
    | none => none
    | some timer =>
      if timer.handle ≠ handle then none
      else
        some (true, { s with
          timers := s.timers.set (uidx handle)
            { timer with next := s.current + timer.period } })

/-- `FakeTimers::TimerStop`: bounds checks, the handle assert, then
`timer.next = 0ms`. -/
def TimerStop (s : FT) (handle : Nat) : Option (Bool × FT) :=
  if s.timers.length < handle then some (false, s)
  else if handle = 0 then some (false, s)
  else
    match s.timers[uidx handle]? with
    | none => none
    | some timer =>
      if timer.handle ≠ handle then none
      else
        some (true, { s with
          timers := s.timers.set (uidx handle) { timer with next := 0 } })

/-- `FakeTimers::TimerReset` is literally `return TimerStart(handle)`. -/
def TimerReset (s : FT) (handle : Nat) : Option (Bool × FT) :=
  TimerStart s handle

/-- `FakeTimers::TimerChangePeriod`: bounds checks, `newPeriod <= 0ms`
check, the handle assert, then sets `period` and re-anchors
`next = mCurrent + period`. -/
def TimerChangePeriod (s : FT) (handle : Nat) (newPeriod : Int) :
    Option (Bool × FT) :=
  if s.timers.length < handle then some (false, s)
  else if handle = 0 then some (false, s)
  else if newPeriod ≤ 0 then some (false, s)
  else
    match s.timers[uidx handle]? with
    | none => none
    | some timer =>
      if timer.handle ≠ handle then none
      else
        some (true, { s with
          timers := s.timers.set (uidx handle)
            { timer with period := newPeriod
                         next := s.current + newPeriod } })

/-- `FakeTimers::TimerSetBehavior`: bounds checks, the handle assert,
then sets `behavior` only. -/
def TimerSetBehavior (s : FT) (handle : Nat) (behavior : Behavior) :
    Option (Bool × FT) :=
  if s.timers.length < handle then some (false, s)
  else if handle = 0 then some (false, s)
  else
    match s.timers[uidx handle]? with
    | none => none
    | some timer =>
      if timer.handle ≠ handle then none
      else
        some (true, { s with
          timers := s.timers.set (uidx handle)
            { timer with behavior := behavior } })

/-- `FakeTimers::TimerSetContext`: bounds checks, the handle assert,
then sets `context` only. -/
def TimerSetContext (s : FT) (handle : Nat) (newContext : Nat) :
    Option (Bool × FT) :=
  if s.timers.length < handle then some (false, s)
  else if handle = 0 then some (false, s)
  else
    match s.timers[uidx handle]? with
    | none => none
    | some timer =>
      if timer.handle ≠ handle then none
      else
        some (true, { s with
          timers := s.timers.set (uidx handle)
            { timer with context := newContext } })

/-- `FakeTimers::TimerIsActive`: reads `mTimers.at(handle - 1)` (`none`
models the `at()` throw for an out-of-range index), returns `false` for
an unallocated slot, else `timer.next != 0ms`.  Note: no handle assert
here, unlike the mutators. -/
def TimerIsActive (s : FT) (handle : Nat) : Option Bool :=
  match s.timers[uidx handle]? with
  | none => none
  | some timer =>
    if !timer.allocated then some false
    else some (decide (timer.next ≠ 0))

/-- `FakeTimers::PendFunctionCall`: appends to the queue tail, always
returns true. -/
def PendFunctionCall (s : FT) (func : PendAct) (context : Nat)
    (param2 : Nat) : Bool × FT :=
  (true, { s with pendQueue := s.pendQueue ++ [⟨func, context, param2⟩] })

/-- Termination measure weight of one pendable in the drain loop:
invoking a `pendAnother` pops itself (weight 2) while pushing one pure
`record` pendable (weight 1), so total queue weight strictly drops. -/
def pendWeight : PendAct → Nat
  | PendAct.pendAnother _ _ _ _ => 2
  | _ => 1

/-- Total drain-termination weight of a pend queue. -/
def queueWeight (q : List InternalPendable) : Nat :=
  (q.map (fun p => pendWeight p.func)).sum

/-- One-step-plus-recursion body of the `ExecutePendables` while loop,
made structurally recursive on a fuel argument so that the function is
kernel-computable.  The fuel is the strictly decreasing termination
measure `queueWeight`; `executePendables_eq` below proves the exact
while-loop unfolding, showing the fuel is always sufficient. -/
def drainLoop : Nat → FT → FT × List Event
  | 0, s => (s, [])
  | fuel + 1, s =>
    match s.pendQueue with
    | [] => (s, [])
    | internal :: rest =>
      match internal.func with
      | PendAct.null =>
        drainLoop fuel { s with pendQueue := rest }
      | PendAct.record tag =>
        let r := drainLoop fuel { s with pendQueue := rest }
        (r.1, Event.pendCalled tag internal.context internal.param2 :: r.2)
      | PendAct.pendAnother tag it ic ip =>
        let r := drainLoop fuel
          { s with pendQueue := rest ++ [⟨PendAct.record it, ic, ip⟩] }
        (r.1, Event.pendCalled tag internal.context internal.param2 :: r.2)

/-- `FakeTimers::ExecutePendables`: while the queue is non-empty, read
the front, invoke it when its function is non-null (a `pendAnother`
invocation pushes a `record` pendable at the tail, exactly what
`PendFunctionCall` from inside the pended function does), then pop the
front.  Returns the new state and the invocation events in order. -/
def executePendables (s : FT) : FT × List Event :=
  drainLoop (queueWeight s.pendQueue) s

/-- The `if (timer.callback != nullptr) timer.callback(handle, context)`
step of `ConsiderFiringTimer`: applies the callback's effect to the
state and records the invocation event (none for a null callback).
`none` models an abort inside the callback. -/
def invokeCallback (s : FT) (timer : Timer) : Option (FT × List Event) :=
  match timer.callback with
  | CbAct.null => some (s, [])
  | CbAct.record =>
    some (s, [Event.timerFired timer.handle timer.context])
  | CbAct.stopSelf =>
    (TimerStop s timer.handle).map
      (fun r => (r.2, [Event.timerFired timer.handle timer.context]))

/-- `FakeTimers::ConsiderFiringTimer` for the slot at index `i` (the
C++ takes `Timer&`, a live reference into `mTimers`; index-based access
reproduces that aliasing).  Skips unallocated / non-positive-period /
inactive slots; when due (`mCurrent >= next`), invokes the callback if
non-null, then re-reads the slot through the reference and either
re-anchors `next = mCurrent + period` (AutoReload) or deactivates
(`next = 0`). -/
def considerFiringTimer (s : FT) (i : Nat) : Option (FT × List Event) :=
  match s.timers[i]? with
  | none => some (s, [])
  | some timer =>
    if !timer.allocated then some (s, [])
    else if timer.period ≤ 0 then some (s, [])
    else if timer.next ≤ 0 then some (s, [])
    else if s.current ≥ timer.next then
      match invokeCallback s timer with
      | none => none
      | some (s1, evs) =>
        match s1.timers[i]? with
        | none => none
        | some timer2 =>
          if timer2.behavior = Behavior.AutoReload then
            some ({ s1 with timers := (s1.timers.set i
                      { timer2 with next := s1.current + timer2.period }) },
                  evs)
          else
            some ({ s1 with timers := (s1.timers.set i
                      { timer2 with next := 0 }) }, evs)
    else some (s, [])

/-- The sweep `for (auto& timer : mTimers) ConsiderFiringTimer(timer)`,
unrolled as `n` consecutive slots starting at index `i`. -/
def sweepFrom : FT → Nat → Nat → Option (FT × List Event)
  | s, _, 0 => some (s, [])
  | s, i, n + 1 =>
    match considerFiringTimer s i with
    | none => none
    | some (s1, evs) =>
      match sweepFrom s1 (i + 1) n with
      | none => none
      | some (s2, evs2) => some (s2, evs ++ evs2)

/-- One full sweep over all timer slots. -/
def sweep (s : FT) : Option (FT × List Event) :=
  sweepFrom s 0 s.timers.length

/-- The stepping loop of `FakeTimers::MoveTimeForward`, made
structurally recursive on a fuel argument so that the function is
kernel-computable.  While `remaining > 0`, advance the clock by
`min(remaining, mSysTickPeriod)` and sweep all slots.  When the
sys-tick quantum is non-positive the C++ loop never terminates; that
divergence is modelled as `none`.  The fuel is the termination measure
`remaining.toNat` (each iteration consumes at least 1 when the quantum
is positive); `moveLoop_eq` below proves the exact while-loop
unfolding, showing the fuel is always sufficient. -/
def moveLoopAux : Nat → FT → Int → Option (FT × List Event)
  | 0, s, remaining => if 0 < remaining then none else some (s, [])
  | fuel + 1, s, remaining =>
    if 0 < remaining then
      if s.sysTickPeriod ≤ 0 then none
      else
        match sweep { s with
            current := s.current + min remaining s.sysTickPeriod } with
        | none => none
        | some (s2, evs) =>
          match moveLoopAux fuel s2 (remaining - min remaining s.sysTickPeriod) with
          | none => none
          | some (s3, evs2) => some (s3, evs ++ evs2)
    else some (s, [])

/-- The stepping loop of `FakeTimers::MoveTimeForward`, with the fuel
instantiated at its always-sufficient value. -/
def moveLoop (s : FT) (remaining : Int) : Option (FT × List Event) :=
  moveLoopAux remaining.toNat s remaining

/-- `FakeTimers::MoveTimeForward`: drain the pend queue first, then run
the stepping loop. -/
def MoveTimeForward (s : FT) (time : Int) : Option (FT × List Event) :=
  match moveLoop (executePendables s).1 time with
  | none => none
  | some (s2, evs) => some (s2, (executePendables s).2 ++ evs)

/-- `FakeTimers::Tick`: `MoveTimeForward(mSysTickPeriod)`. -/
def Tick (s : FT) : Option (FT × List Event) :=
  MoveTimeForward s s.sysTickPeriod

/-- Run a sequence of `MoveTimeForward` calls, concatenating traces. -/
def runAdvances : FT → List Int → Option (FT × List Event)
  | s, [] => some (s, [])
  | s, t :: ts =>
    match MoveTimeForward s t with
    | none => none
    | some (s1, evs) =>
      match runAdvances s1 ts with
      | none => none
      | some (s2, evs2) => some (s2, evs ++ evs2)

/-- Is an event a timer-callback invocation? -/
def Event.isFire : Event → Bool
  | Event.timerFired _ _ => true
  | Event.pendCalled _ _ _ => false

/-- Is an event a pended-function invocation? -/
def Event.isPend : Event → Bool
  | Event.timerFired _ _ => false
  | Event.pendCalled _ _ _ => true

/-- Number of timer-callback invocations in a trace. -/
def fireCount (evs : List Event) : Nat :=
  (evs.filter Event.isFire).length

/-! ## Loop-unfolding lemmas

`drainLoop` and `moveLoopAux` carry their termination measure as a fuel
argument; the lemmas here show the fuel choice made in
`executePendables` and `moveLoop` is always sufficient, yielding the
exact while-loop unfolding equations used by all later proofs. -/

theorem pendWeight_pos (f : PendAct) : 0 < pendWeight f := by
  cases f <;> simp [pendWeight]

theorem queueWeight_nil : queueWeight [] = 0 := rfl

theorem queueWeight_cons (p : InternalPendable) (q : List InternalPendable) :
    queueWeight (p :: q) = pendWeight p.func + queueWeight q := by
  simp [queueWeight]

theorem queueWeight_append (q r : List InternalPendable) :
    queueWeight (q ++ r) = queueWeight q + queueWeight r := by
  simp [queueWeight]

theorem drainLoop_congr :
    ∀ (f1 f2 : Nat) (s : FT), queueWeight s.pendQueue ≤ f1 →
      queueWeight s.pendQueue ≤ f2 → drainLoop f1 s = drainLoop f2 s := by
  intro f1
  induction f1 with
  | zero =>
    intro f2 s h1 _
    match hq : s.pendQueue with
    | [] => cases f2 <;> simp [drainLoop, hq]
    | p :: rest =>
      rw [hq, queueWeight_cons] at h1
      have := pendWeight_pos p.func
      omega
  | succ f ih =>
    intro f2 s h1 h2
    match hq : s.pendQueue with
    | [] => cases f2 <;> simp [drainLoop, hq]
    | p :: rest =>
      have hw := pendWeight_pos p.func
      rw [hq, queueWeight_cons] at h1 h2
      cases f2 with
      | zero => omega
      | succ f2 =>
        simp only [drainLoop, hq]
        match hf : p.func with
        | PendAct.null =>
          rw [hf] at h1 h2
          simp only [pendWeight] at h1 h2
          exact ih f2 { s with pendQueue := rest }
            (by show queueWeight rest ≤ f; omega)
            (by show queueWeight rest ≤ f2; omega)
        | PendAct.record tag =>
          rw [hf] at h1 h2
          simp only [pendWeight] at h1 h2
          have hrw := ih f2 { s with pendQueue := rest }
            (by show queueWeight rest ≤ f; omega)
            (by show queueWeight rest ≤ f2; omega)
          simp only [hrw]
        | PendAct.pendAnother tag it ic ip =>
          rw [hf] at h1 h2
          simp only [pendWeight] at h1 h2
          have hrw := ih f2
            { s with pendQueue := rest ++ [⟨PendAct.record it, ic, ip⟩] }
            (by show queueWeight (rest ++ [⟨PendAct.record it, ic, ip⟩]) ≤ f
                rw [queueWeight_append, queueWeight_cons, queueWeight_nil]
                simp only [pendWeight]
                omega)
            (by show queueWeight (rest ++ [⟨PendAct.record it, ic, ip⟩]) ≤ f2
                rw [queueWeight_append, queueWeight_cons, queueWeight_nil]
                simp only [pendWeight]
                omega)
          simp only [hrw]

/-- The while-loop unfolding of `ExecutePendables`: process the front
(if non-null, invoke it, a `pendAnother` pushing a `record` pendable at
the tail), pop it, continue until the queue is empty. -/
theorem executePendables_eq (s : FT) :
    executePendables s =
      match s.pendQueue with
      | [] => (s, [])
      | internal :: rest =>
        match internal.func with
        | PendAct.null =>
          executePendables { s with pendQueue := rest }
        | PendAct.record tag =>
          let r := executePendables { s with pendQueue := rest }
          (r.1, Event.pendCalled tag internal.context internal.param2 :: r.2)
        | PendAct.pendAnother tag it ic ip =>
          let r := executePendables
            { s with pendQueue := rest ++ [⟨PendAct.record it, ic, ip⟩] }
          (r.1, Event.pendCalled tag internal.context internal.param2 :: r.2) := by
  have hbump : executePendables s = drainLoop (queueWeight s.pendQueue + 1) s :=
    drainLoop_congr _ _ s le_rfl (Nat.le_succ _)
  rw [hbump]
  cases hq : s.pendQueue with
  | nil => simp [drainLoop, hq]
  | cons p rest =>
    cases hf : p.func with
    | null =>
      simp only [drainLoop, hq, hf]
      apply drainLoop_congr
      · show queueWeight rest ≤ queueWeight (p :: rest)
        rw [queueWeight_cons]
        have := pendWeight_pos p.func
        omega
      · exact Nat.le_refl _
    | record tag =>
      simp only [drainLoop, hq, hf, executePendables]
      have hcg : drainLoop (queueWeight (p :: rest))
            { s with pendQueue := rest } =
          drainLoop (queueWeight rest) { s with pendQueue := rest } := by
        apply drainLoop_congr
        · show queueWeight rest ≤ queueWeight (p :: rest)
          rw [queueWeight_cons]
          have := pendWeight_pos p.func
          omega
        · exact Nat.le_refl _
      rw [hcg]
    | pendAnother tag it ic ip =>
      simp only [drainLoop, hq, hf, executePendables]
      have hcg : drainLoop (queueWeight (p :: rest))
            { s with pendQueue := rest ++ [⟨PendAct.record it, ic, ip⟩] } =
          drainLoop (queueWeight (rest ++ [⟨PendAct.record it, ic, ip⟩]))
            { s with pendQueue := rest ++ [⟨PendAct.record it, ic, ip⟩] } := by
        apply drainLoop_congr
        · show queueWeight (rest ++ [⟨PendAct.record it, ic, ip⟩]) ≤
            queueWeight (p :: rest)
          rw [queueWeight_cons, hf, queueWeight_append, queueWeight_cons,
            queueWeight_nil]
          simp only [pendWeight]
          omega
        · exact Nat.le_refl _
      rw [hcg]

theorem moveLoopAux_congr :
    ∀ (f1 f2 : Nat) (s : FT) (r : Int), r.toNat ≤ f1 → r.toNat ≤ f2 →
      moveLoopAux f1 s r = moveLoopAux f2 s r := by
  intro f1
  induction f1 with
  | zero =>
    intro f2 s r h1 _
    have hr : ¬ 0 < r := by omega
    cases f2 <;> simp [moveLoopAux, hr]
  | succ f ih =>
    intro f2 s r h1 h2
    by_cases hr : 0 < r
    · cases f2 with
      | zero => omega
      | succ f2 =>
        simp only [moveLoopAux, if_pos hr]
        by_cases hq : s.sysTickPeriod ≤ 0
        · simp [hq]
        · simp only [if_neg hq]
          have hd : 1 ≤ min r s.sysTickPeriod := by omega
          have hrec : (r - min r s.sysTickPeriod).toNat ≤ f := by omega
          have hrec2 : (r - min r s.sysTickPeriod).toNat ≤ f2 := by omega
          have hinner : ∀ t : FT, moveLoopAux f t (r - min r s.sysTickPeriod) =
              moveLoopAux f2 t (r - min r s.sysTickPeriod) :=
            fun t => ih f2 t _ hrec hrec2
          simp only [hinner]
    · cases f2 <;> simp [moveLoopAux, hr]

/-- The while-loop unfolding of the stepping loop in
`MoveTimeForward`: while `remaining > 0`, step the clock by
`min(remaining, mSysTickPeriod)`, sweep every slot, and continue with
the rest; a non-positive quantum means the C++ loop never terminates
(`none`). -/
theorem moveLoop_eq (s : FT) (r : Int) :
    moveLoop s r =
      if 0 < r then
        if s.sysTickPeriod ≤ 0 then none
        else
          match sweep { s with
              current := s.current + min r s.sysTickPeriod } with
          | none => none
          | some (s2, evs) =>
            match moveLoop s2 (r - min r s.sysTickPeriod) with
            | none => none
            | some (s3, evs2) => some (s3, evs ++ evs2)
      else some (s, []) := by
  have hbump : moveLoop s r = moveLoopAux (r.toNat + 1) s r :=
    moveLoopAux_congr _ _ s r le_rfl (Nat.le_succ _)
  rw [hbump]
  by_cases hr : 0 < r
  · simp only [moveLoopAux, if_pos hr]
    by_cases hq : s.sysTickPeriod ≤ 0
    · simp [hq]
    · simp only [if_neg hq]
      have hd : 1 ≤ min r s.sysTickPeriod := by omega
      have hinner : ∀ t : FT, moveLoopAux r.toNat t (r - min r s.sysTickPeriod) =
          moveLoop t (r - min r s.sysTickPeriod) :=
        fun t => moveLoopAux_congr _ _ t _ (by omega) le_rfl
      simp only [hinner]
  · simp [moveLoopAux, hr]

end FakeTimers

namespace FakeTimers

/-! ## Small helper lemmas -/

theorem uidx_eq_sub_one {h : Nat} (hh : h ≠ 0) : uidx h = h - 1 := by
  rw [uidx, if_neg hh]

theorem list_set_getElem_self {α : Type} (l : List α) (i : Nat)
    (h : i < l.length) : l.set i l[i] = l := by
  apply List.ext_getElem
  · simp
  · intro j h1 h2
    rw [List.getElem_set]
    split <;> simp_all

end FakeTimers

namespace FakeTimers

/-- C9: for every in-range handle (`1 ≤ handle ≤ slot count`),
`TimerIsActive` returns, without any abort, exactly
`allocated && next ≠ 0` of the addressed slot; in particular `false`
for an in-bounds unallocated slot. -/
theorem C9_timerIsActive_inBounds (s : FT) (h : Nat)
    (h1 : 1 ≤ h) (h2 : h ≤ s.timers.length) :
    TimerIsActive s h =
      some ((s.timers.getD (h - 1) {}).allocated &&
        decide ((s.timers.getD (h - 1) {}).next ≠ 0)) := by
  have hu : uidx h = h - 1 := uidx_eq_sub_one (by omega)
  have hlt : h - 1 < s.timers.length := by omega
  rw [TimerIsActive, hu, List.getElem?_eq_getElem hlt,
    List.getD_eq_getElem _ _ hlt]
  cases ha : s.timers[h - 1].allocated <;> simp [ha]

/-- C9 witness: a fresh engine, handle 1 (in bounds, slot never
allocated): `TimerIsActive` returns `some false`. -/
theorem C9_witness :
    TimerIsActive (FT.mk0 10) 1 =
      some (((FT.mk0 10).timers.getD 0 {}).allocated &&
        decide (((FT.mk0 10).timers.getD 0 {}).next ≠ 0)) :=
  C9_timerIsActive_inBounds (FT.mk0 10) 1 (by decide) (by decide)

/-- C10: `TimerSetBehavior` on a valid allocated handle returns
`some true` and modifies only the addressed slot's `behavior` field:
the clock, quantum, pend queue, every other slot, and every other field
of the slot (period, next, name, context, callback, handle, allocated)
are unchanged. -/
theorem C10_setBehavior_frame (s : FT) (h : Nat) (b : Behavior)
    (h1 : 1 ≤ h) (h2 : h ≤ s.timers.length)
    (ha : (s.timers.getD (h - 1) {}).allocated = true)
    (hh : (s.timers.getD (h - 1) {}).handle = h) :
    ∃ s', TimerSetBehavior s h b = some (true, s') ∧
      s'.current = s.current ∧
      s'.sysTickPeriod = s.sysTickPeriod ∧
      s'.pendQueue = s.pendQueue ∧
      s'.timers.length = s.timers.length ∧
      (∀ j, j ≠ h - 1 → s'.timers[j]? = s.timers[j]?) ∧
      s'.timers[h - 1]? =
        some { s.timers.getD (h - 1) {} with behavior := b } := by
  have hu : uidx h = h - 1 := uidx_eq_sub_one (by omega)
  have hlt : h - 1 < s.timers.length := by omega
  rw [List.getD_eq_getElem _ _ hlt] at hh
  refine ⟨{ s with timers := (s.timers.set (h - 1)
    { s.timers[h - 1] with behavior := b }) }, ?_, rfl, rfl, rfl, by simp,
    ?_, ?_⟩
  · rw [TimerSetBehavior, if_neg (by omega), if_neg (by omega), hu,
      List.getElem?_eq_getElem hlt]
    simp [hh]
  · intro j hj
    exact List.getElem?_set_ne (by omega)
  · rw [List.getElem?_set_eq_of_lt _ hlt, List.getD_eq_getElem _ _ hlt]

/-- C10 witness: a 2-slot state with slot 0 allocated; setting the
behavior succeeds with the stated frame. -/
theorem C10_witness :
    ∃ s', TimerSetBehavior
      { timers := [{ name := 4, period := 10, behavior := Behavior.SingleShot,
                     context := 9, callback := CbAct.record, handle := 1,
                     allocated := true, next := 30 }, {}],
        sysTickPeriod := 10, current := 0, pendQueue := [] }
      1 Behavior.AutoReload = some (true, s') ∧
      s'.current = 0 ∧ s'.sysTickPeriod = 10 ∧ s'.pendQueue = [] ∧
      s'.timers.length = 2 ∧
      (∀ j, j ≠ 0 → s'.timers[j]? =
        ([{ name := 4, period := 10, behavior := Behavior.SingleShot,
            context := 9, callback := CbAct.record, handle := 1,
            allocated := true, next := 30 }, ({} : Timer)])[j]?) ∧
      s'.timers[0]? =
        some { name := 4, period := 10, behavior := Behavior.AutoReload,
               context := 9, callback := CbAct.record, handle := 1,
               allocated := true, next := 30 } :=
  C10_setBehavior_frame _ 1 Behavior.AutoReload
    (by decide) (by decide) (by decide) (by decide)

end FakeTimers

namespace FakeTimers

/-- C2 counterexample: on a freshly constructed engine (25 slots, none
allocated), `TimerStart 1` — an in-bounds handle whose slot was never
allocated — hits `assert(timer.handle == handle)` (the default slot has
handle 0) and aborts instead of returning `false`. -/
theorem C2_counterexample : TimerStart (FT.mk0 10) 1 = none := by decide

/-- C2 as amended: a zero or out-of-bounds handle is reported solely by
a `false` return from every mutator; but an in-bounds handle whose
slot's stored handle does not match (the state of any never-allocated
or deleted slot, whose stored handle is 0) makes every mutator fail its
`assert(timer.handle == handle)` and abort (`TimerChangePeriod` only
when the new period passes its positivity check, which is tested
first). -/
theorem C2_mutators_invalid_handle (s : FT) (h : Nat) (newP : Int)
    (b : Behavior) (ctx : Nat) :
    (h = 0 ∨ s.timers.length < h →
      TimerStart s h = some (false, s) ∧
      TimerStop s h = some (false, s) ∧
      TimerReset s h = some (false, s) ∧
      TimerChangePeriod s h newP = some (false, s) ∧
      TimerSetBehavior s h b = some (false, s) ∧
      TimerSetContext s h ctx = some (false, s)) ∧
    (1 ≤ h → h ≤ s.timers.length →
      (s.timers.getD (h - 1) {}).handle ≠ h →
      TimerStart s h = none ∧
      TimerStop s h = none ∧
      TimerReset s h = none ∧
      (0 < newP → TimerChangePeriod s h newP = none) ∧
      TimerSetBehavior s h b = none ∧
      TimerSetContext s h ctx = none) := by
  constructor
  · rintro (h0 | hgt)
    · subst h0
      refine ⟨?_, ?_, ?_, ?_, ?_, ?_⟩ <;>
        simp [TimerStart, TimerStop, TimerReset, TimerChangePeriod,
          TimerSetBehavior, TimerSetContext]
    · refine ⟨?_, ?_, ?_, ?_, ?_, ?_⟩ <;>
        simp [TimerStart, TimerStop, TimerReset, TimerChangePeriod,
          TimerSetBehavior, TimerSetContext, if_pos hgt]
  · intro h1 h2 hmm
    have hu : uidx h = h - 1 := uidx_eq_sub_one (by omega)
    have hlt : h - 1 < s.timers.length := by omega
    rw [List.getD_eq_getElem _ _ hlt] at hmm
    have hstart : TimerStart s h = none := by
      rw [TimerStart, if_neg (by omega), if_neg (by omega), hu,
        List.getElem?_eq_getElem hlt]
      simp [hmm]
    refine ⟨hstart, ?_, ?_, fun hP => ?_, ?_, ?_⟩
    · rw [TimerStop, if_neg (by omega), if_neg (by omega), hu,
        List.getElem?_eq_getElem hlt]
      simp [hmm]
    · rw [TimerReset]
      exact hstart
    · rw [TimerChangePeriod, if_neg (by omega), if_neg (by omega),
        if_neg (by omega), hu, List.getElem?_eq_getElem hlt]
      simp [hmm]
    · rw [TimerSetBehavior, if_neg (by omega), if_neg (by omega), hu,
        List.getElem?_eq_getElem hlt]
      simp [hmm]
    · rw [TimerSetContext, if_neg (by omega), if_neg (by omega), hu,
        List.getElem?_eq_getElem hlt]
      simp [hmm]

/-- C2 amended-claim witness: handle 26 is out of bounds on a fresh
engine (`some false` from a mutator); handle 1 is in bounds with a
never-allocated slot (stored handle 0), so the mutator aborts. -/
theorem C2_witness :
    TimerStart (FT.mk0 10) 26 = some (false, FT.mk0 10) ∧
    TimerStop (FT.mk0 10) 1 = none :=
  ⟨((C2_mutators_invalid_handle (FT.mk0 10) 26 5 Behavior.SingleShot 0).1
      (by decide)).1,
   (((C2_mutators_invalid_handle (FT.mk0 10) 1 5 Behavior.SingleShot 0).2
      (by decide) (by decide) (by decide)).2).1⟩

end FakeTimers

namespace FakeTimers

theorem findAvailableTimer_lt (ts : List Timer) :
    (findAvailableTimer ts).1 < (findAvailableTimer ts).2.length := by
  rw [findAvailableTimer]
  cases hfi : ts.findIdx? (fun t => !t.allocated) with
  | none => simp
  | some i =>
    rw [List.findIdx?_eq_some_iff_findIdx_eq] at hfi
    simpa using hfi.1

/-- C3 counterexample: quantum 10; create a timer with (valid) period
10, then `TimerChangePeriod` to 15.  The call succeeds (`some true`)
and leaves an allocated slot whose period 15 is not a multiple of the
quantum (`15 tmod 10 = 5`), because `TimerChangePeriod` checks only
positivity, not divisibility. -/
theorem C3_counterexample :
    (TimerCreate (FT.mk0 10) 0 10 Behavior.AutoReload 0 CbAct.record).1 = 1 ∧
    ((TimerChangePeriod
        (TimerCreate (FT.mk0 10) 0 10 Behavior.AutoReload 0 CbAct.record).2
        1 15).map (fun r =>
          (r.1, (r.2.timers.getD 0 {}).allocated,
            (r.2.timers.getD 0 {}).period,
            (r.2.timers.getD 0 {}).period.tmod r.2.sysTickPeriod)))
      = some (true, true, 15, 5) := by decide

/-- C3 as amended: `TimerCreate` returns handle 0 and leaves the state
unchanged when the period is not a positive multiple of the quantum,
and a successful creation installs an allocated slot with the valid
period; but `TimerChangePeriod` validates only positivity of the new
period (rejecting `newPeriod ≤ 0` with `false`), so it preserves
`period > 0` and not the multiple-of-quantum property. -/
theorem C3_period_validation (s : FT) (nm : Nat) (P : Int) (b : Behavior)
    (c : Nat) (cb : CbAct) (h : Nat) (newP : Int) :
    (P ≤ 0 ∨ P.tmod s.sysTickPeriod ≠ 0 →
      TimerCreate s nm P b c cb = (0, s)) ∧
    (∀ hdl s', TimerCreate s nm P b c cb = (hdl, s') → hdl ≠ 0 →
      0 < P ∧ P.tmod s.sysTickPeriod = 0 ∧
      (s'.timers.getD (hdl - 1) {}).allocated = true ∧
      (s'.timers.getD (hdl - 1) {}).period = P) ∧
    (newP ≤ 0 → TimerChangePeriod s h newP = some (false, s)) ∧
    (∀ s', TimerChangePeriod s h newP = some (true, s') →
      0 < newP ∧ (s'.timers.getD (h - 1) {}).period = newP) := by
  refine ⟨?_, ?_, ?_, ?_⟩
  · rintro (hP | hP)
    · rw [TimerCreate, if_pos hP]
    · rw [TimerCreate]
      by_cases hP0 : P ≤ 0
      · rw [if_pos hP0]
      · rw [if_neg hP0, if_pos hP]
  · intro hdl s' hcr h0
    by_cases hc1 : P ≤ 0
    · rw [TimerCreate, if_pos hc1] at hcr
      injection hcr with hc _
      exact absurd hc.symm h0
    · by_cases hc2 : P.tmod s.sysTickPeriod ≠ 0
      · rw [TimerCreate, if_neg hc1, if_pos hc2] at hcr
        injection hcr with hc _
        exact absurd hc.symm h0
      · simp only [TimerCreate, if_neg hc1, if_neg hc2] at hcr
        injection hcr with hc1' hc2'
        subst hc1'
        subst hc2'
        have hlt := findAvailableTimer_lt s.timers
        refine ⟨by omega, by omega, ?_, ?_⟩ <;>
          rw [List.getD_eq_getElem?_getD, Nat.add_sub_cancel,
            List.getElem?_set_eq_of_lt _ hlt] <;> rfl
  · intro hP
    rw [TimerChangePeriod]
    by_cases hb1 : s.timers.length < h
    · rw [if_pos hb1]
    · rw [if_neg hb1]
      by_cases hb2 : h = 0
      · rw [if_pos hb2]
      · rw [if_neg hb2, if_pos hP]
  · intro s' hch
    rw [TimerChangePeriod] at hch
    by_cases hb1 : s.timers.length < h
    · rw [if_pos hb1] at hch
      simp at hch
    · rw [if_neg hb1] at hch
      by_cases hb2 : h = 0
      · rw [if_pos hb2] at hch
        simp at hch
      · rw [if_neg hb2] at hch
        by_cases hb3 : newP ≤ 0
        · rw [if_pos hb3] at hch
          simp at hch
        · rw [if_neg hb3] at hch
          refine ⟨by omega, ?_⟩
          have hu : uidx h = h - 1 := uidx_eq_sub_one hb2
          have hlt : h - 1 < s.timers.length := by omega
          rw [hu, List.getElem?_eq_getElem hlt] at hch
          by_cases hhm : s.timers[h - 1].handle ≠ h
          · simp [hhm] at hch
          · rw [not_ne_iff] at hhm
            simp only [hhm, ne_eq, not_true_eq_false, if_false,
              Option.some_inj, Prod.mk.injEq, true_and] at hch
            subst hch
            rw [List.getD_eq_getElem?_getD,
              List.getElem?_set_eq_of_lt _ hlt]
            rfl

/-- The state reached from a fresh quantum-10 engine by creating a
period-10 auto-reload timer and then changing its period to 15; used by
the C3 witness. -/
def c3ChangedState : FT :=
  { timers := (List.replicate 25 ({} : Timer)).set 0
      { name := 0, period := 15, behavior := Behavior.AutoReload,
        context := 0, callback := CbAct.record, handle := 1,
        allocated := true, next := 15 }
    sysTickPeriod := 10
    current := 0
    pendQueue := [] }

/-- C3 amended-claim witness: quantum 10, creating with period 15
fails with handle 0; changing a period to -3 fails with `false`; a
successful change to 15 installs period 15. -/
theorem C3_witness :
    TimerCreate (FT.mk0 10) 0 15 Behavior.SingleShot 0 CbAct.record
      = (0, FT.mk0 10) ∧
    TimerChangePeriod (FT.mk0 10) 1 (-3) = some (false, FT.mk0 10) ∧
    (0 < (15 : Int) ∧ (c3ChangedState.timers.getD 0 {}).period = 15) :=
  ⟨(C3_period_validation (FT.mk0 10) 0 15 Behavior.SingleShot 0
      CbAct.record 1 5).1 (Or.inr (by decide)),
   (C3_period_validation (FT.mk0 10) 0 10 Behavior.SingleShot 0
      CbAct.record 1 (-3)).2.2.1 (by decide),
   (C3_period_validation
      (TimerCreate (FT.mk0 10) 0 10 Behavior.AutoReload 0 CbAct.record).2
      0 10 Behavior.SingleShot 0 CbAct.record 1 15).2.2.2 c3ChangedState
      (by decide)⟩

end FakeTimers

namespace FakeTimers

/-! ## Drain lemmas: frame, exhaustiveness, FIFO order -/

theorem drainLoop_frame : ∀ (f : Nat) (s : FT),
    (drainLoop f s).1.timers = s.timers ∧
    (drainLoop f s).1.current = s.current ∧
    (drainLoop f s).1.sysTickPeriod = s.sysTickPeriod := by
  intro f
  induction f with
  | zero => intro s; exact ⟨rfl, rfl, rfl⟩
  | succ f ih =>
    intro s
    cases hq : s.pendQueue with
    | nil => simp [drainLoop, hq]
    | cons p rest =>
      cases hf : p.func with
      | null => simpa [drainLoop, hq, hf] using ih { s with pendQueue := rest }
      | record tag =>
        simpa [drainLoop, hq, hf] using ih { s with pendQueue := rest }
      | pendAnother tag it ic ip =>
        simpa [drainLoop, hq, hf] using
          ih { s with pendQueue := rest ++ [⟨PendAct.record it, ic, ip⟩] }

theorem queueWeight_eq_zero {q : List InternalPendable}
    (h : queueWeight q = 0) : q = [] := by
  cases q with
  | nil => rfl
  | cons p rest =>
    rw [queueWeight_cons] at h
    have := pendWeight_pos p.func
    omega

theorem drainLoop_queue_nil : ∀ (f : Nat) (s : FT),
    queueWeight s.pendQueue ≤ f → (drainLoop f s).1.pendQueue = [] := by
  intro f
  induction f with
  | zero =>
    intro s hf
    have : s.pendQueue = [] := queueWeight_eq_zero (by omega)
    simp [drainLoop, this]
  | succ f ih =>
    intro s hf
    cases hq : s.pendQueue with
    | nil => simp [drainLoop, hq]
    | cons p rest =>
      rw [hq, queueWeight_cons] at hf
      cases hf2 : p.func with
      | null =>
        rw [hf2] at hf
        simp only [drainLoop, hq, hf2]
        exact ih _ (by show queueWeight rest ≤ f; simp [pendWeight] at hf; omega)
      | record tag =>
        rw [hf2] at hf
        simp only [drainLoop, hq, hf2]
        exact ih _ (by show queueWeight rest ≤ f; simp [pendWeight] at hf; omega)
      | pendAnother tag it ic ip =>
        rw [hf2] at hf
        simp only [drainLoop, hq, hf2]
        refine ih _ ?_
        show queueWeight (rest ++ [⟨PendAct.record it, ic, ip⟩]) ≤ f
        rw [queueWeight_append, queueWeight_cons, queueWeight_nil]
        simp only [pendWeight] at hf ⊢
        omega

theorem drainLoop_events_pend : ∀ (f : Nat) (s : FT),
    ∀ e ∈ (drainLoop f s).2, e.isPend = true := by
  intro f
  induction f with
  | zero => intro s e he; simp [drainLoop] at he
  | succ f ih =>
    intro s e he
    cases hq : s.pendQueue with
    | nil => simp [drainLoop, hq] at he
    | cons p rest =>
      cases hf : p.func with
      | null =>
        simp only [drainLoop, hq, hf] at he
        exact ih _ e he
      | record tag =>
        simp only [drainLoop, hq, hf] at he
        rcases List.mem_cons.mp he with rfl | hmem
        · rfl
        · exact ih _ e hmem
      | pendAnother tag it ic ip =>
        simp only [drainLoop, hq, hf] at he
        rcases List.mem_cons.mp he with rfl | hmem
        · rfl
        · exact ih _ e hmem

/-- The invocation event of a pend-queue entry (meaningful when the
entry's function is non-null). -/
def entryEvent (p : InternalPendable) : Event :=
  match p.func with
  | PendAct.null => Event.pendCalled 0 p.context p.param2
  | PendAct.record tag => Event.pendCalled tag p.context p.param2
  | PendAct.pendAnother tag _ _ _ => Event.pendCalled tag p.context p.param2

theorem drainLoop_fifo : ∀ (q : List InternalPendable) (f : Nat) (s : FT)
    (r : List InternalPendable), s.pendQueue = q ++ r →
    queueWeight s.pendQueue ≤ f →
    (∀ p ∈ q, p.func ≠ PendAct.null) →
    ∃ extra, (drainLoop f s).2 = q.map entryEvent ++ extra := by
  intro q
  induction q with
  | nil =>
    intro f s r _ _ _
    exact ⟨(drainLoop f s).2, by simp⟩
  | cons p q' ih =>
    intro f s r hq hw hnn
    rw [List.cons_append] at hq
    rw [hq, queueWeight_cons] at hw
    cases f with
    | zero =>
      have := pendWeight_pos p.func
      omega
    | succ f =>
      cases hf : p.func with
      | null => exact absurd hf (hnn p (List.mem_cons_self p q'))
      | record tag =>
        rw [hf] at hw
        simp only [pendWeight] at hw
        obtain ⟨extra, hex⟩ := ih f { s with pendQueue := q' ++ r } r rfl
          (by show queueWeight (q' ++ r) ≤ f; omega)
          (fun p hp => hnn p (List.mem_cons_of_mem _ hp))
        refine ⟨extra, ?_⟩
        simp only [drainLoop, hq, hf, hex]
        simp [entryEvent, hf]
      | pendAnother tag it ic ip =>
        rw [hf] at hw
        simp only [pendWeight] at hw
        obtain ⟨extra, hex⟩ := ih f
          { s with pendQueue := (q' ++ r) ++ [⟨PendAct.record it, ic, ip⟩] }
          (r ++ [⟨PendAct.record it, ic, ip⟩])
          (by rw [List.append_assoc])
          (by show queueWeight ((q' ++ r) ++ [⟨PendAct.record it, ic, ip⟩]) ≤ f
              rw [queueWeight_append, queueWeight_cons, queueWeight_nil]
              simp only [pendWeight]
              omega)
          (fun p hp => hnn p (List.mem_cons_of_mem _ hp))
        refine ⟨extra, ?_⟩
        simp only [drainLoop, hq, hf, hex]
        simp [entryEvent, hf]

end FakeTimers

namespace FakeTimers

theorem drainLoop_mem_record : ∀ (f : Nat) (s : FT)
    (p : InternalPendable) (tg : Nat), queueWeight s.pendQueue ≤ f →
    p ∈ s.pendQueue → p.func = PendAct.record tg →
    Event.pendCalled tg p.context p.param2 ∈ (drainLoop f s).2 := by
  intro f
  induction f with
  | zero =>
    intro s p tg hw hp _
    rw [queueWeight_eq_zero (Nat.le_zero.mp hw)] at hp
    simp at hp
  | succ f ih =>
    intro s p tg hw hp hpf
    cases hq : s.pendQueue with
    | nil => rw [hq] at hp; simp at hp
    | cons hd rest =>
      rw [hq, queueWeight_cons] at hw
      rw [hq] at hp
      rcases List.mem_cons.mp hp with rfl | hmem
      · rw [hpf] at hw
        simp only [pendWeight] at hw
        simp only [drainLoop, hq, hpf]
        exact List.mem_cons_self _ _
      · cases hf : hd.func with
        | null =>
          rw [hf] at hw
          simp only [pendWeight] at hw
          simp only [drainLoop, hq, hf]
          exact ih _ p tg (by show queueWeight rest ≤ f; omega) hmem hpf
        | record tag =>
          rw [hf] at hw
          simp only [pendWeight] at hw
          simp only [drainLoop, hq, hf]
          exact List.mem_cons_of_mem _
            (ih _ p tg (by show queueWeight rest ≤ f; omega) hmem hpf)
        | pendAnother tag it ic ip =>
          rw [hf] at hw
          simp only [pendWeight] at hw
          simp only [drainLoop, hq, hf]
          refine List.mem_cons_of_mem _ (ih _ p tg ?_ ?_ hpf)
          · show queueWeight (rest ++ [⟨PendAct.record it, ic, ip⟩]) ≤ f
            rw [queueWeight_append, queueWeight_cons, queueWeight_nil]
            simp only [pendWeight]
            omega
          · exact List.mem_append_left _ hmem

theorem drainLoop_mem_pendAnother : ∀ (f : Nat) (s : FT)
    (p : InternalPendable) (tg it ic ip : Nat),
    queueWeight s.pendQueue ≤ f → p ∈ s.pendQueue →
    p.func = PendAct.pendAnother tg it ic ip →
    Event.pendCalled tg p.context p.param2 ∈ (drainLoop f s).2 ∧
    Event.pendCalled it ic ip ∈ (drainLoop f s).2 := by
  intro f
  induction f with
  | zero =>
    intro s p tg it ic ip hw hp _
    rw [queueWeight_eq_zero (Nat.le_zero.mp hw)] at hp
    simp at hp
  | succ f ih =>
    intro s p tg it ic ip hw hp hpf
    cases hq : s.pendQueue with
    | nil => rw [hq] at hp; simp at hp
    | cons hd rest =>
      rw [hq, queueWeight_cons] at hw
      rw [hq] at hp
      rcases List.mem_cons.mp hp with rfl | hmem
      · rw [hpf] at hw
        simp only [pendWeight] at hw
        simp only [drainLoop, hq, hpf]
        have hinner : queueWeight (rest ++ [⟨PendAct.record it, ic, ip⟩]) ≤ f := by
          rw [queueWeight_append, queueWeight_cons, queueWeight_nil]
          simp only [pendWeight]
          omega
        refine ⟨List.mem_cons_self _ _, List.mem_cons_of_mem _ ?_⟩
        exact drainLoop_mem_record f _ ⟨PendAct.record it, ic, ip⟩ it hinner
          (List.mem_append_right _ (List.mem_singleton_self _)) rfl
      · cases hf : hd.func with
        | null =>
          rw [hf] at hw
          simp only [pendWeight] at hw
          simp only [drainLoop, hq, hf]
          exact ih { s with pendQueue := rest } p tg it ic ip
            (by show queueWeight rest ≤ f; omega) hmem hpf
        | record tag =>
          rw [hf] at hw
          simp only [pendWeight] at hw
          simp only [drainLoop, hq, hf]
          obtain ⟨h1, h2⟩ := ih { s with pendQueue := rest } p tg it ic ip
            (by show queueWeight rest ≤ f; omega) hmem hpf
          exact ⟨List.mem_cons_of_mem _ h1, List.mem_cons_of_mem _ h2⟩
        | pendAnother tag2 it2 ic2 ip2 =>
          rw [hf] at hw
          simp only [pendWeight] at hw
          simp only [drainLoop, hq, hf]
          obtain ⟨h1, h2⟩ := ih
            { s with pendQueue := rest ++ [⟨PendAct.record it2, ic2, ip2⟩] }
            p tg it ic ip
            (by show queueWeight (rest ++ [⟨PendAct.record it2, ic2, ip2⟩]) ≤ f
                rw [queueWeight_append, queueWeight_cons, queueWeight_nil]
                simp only [pendWeight]
                omega)
            (List.mem_append_left _ hmem) hpf
          exact ⟨List.mem_cons_of_mem _ h1, List.mem_cons_of_mem _ h2⟩

end FakeTimers

namespace FakeTimers

/-! ## Stepping-loop frame lemmas -/

theorem TimerStop_frame (s : FT) (h : Nat) (r : Bool × FT)
    (hr : TimerStop s h = some r) :
    r.2.pendQueue = s.pendQueue ∧ r.2.sysTickPeriod = s.sysTickPeriod ∧
    r.2.current = s.current := by
  rw [TimerStop] at hr
  by_cases h1 : s.timers.length < h
  · rw [if_pos h1] at hr
    obtain rfl := Option.some_inj.mp hr
    exact ⟨rfl, rfl, rfl⟩
  · rw [if_neg h1] at hr
    by_cases h2 : h = 0
    · rw [if_pos h2] at hr
      obtain rfl := Option.some_inj.mp hr
      exact ⟨rfl, rfl, rfl⟩
    · rw [if_neg h2] at hr
      cases hl : s.timers[uidx h]? with
      | none => simp only [hl] at hr; simp at hr
      | some timer =>
        simp only [hl] at hr
        by_cases h3 : timer.handle ≠ h
        · simp [h3] at hr
        · rw [if_neg h3] at hr
          obtain rfl := Option.some_inj.mp hr
          exact ⟨rfl, rfl, rfl⟩

theorem invokeCallback_frame (s : FT) (t : Timer) (r : FT × List Event)
    (hr : invokeCallback s t = some r) :
    r.1.pendQueue = s.pendQueue ∧ r.1.sysTickPeriod = s.sysTickPeriod ∧
    r.1.current = s.current ∧ (∀ e ∈ r.2, e.isFire = true) := by
  rw [invokeCallback] at hr
  cases hc : t.callback with
  | null =>
    simp only [hc] at hr
    obtain rfl := Option.some_inj.mp hr
    exact ⟨rfl, rfl, rfl, by simp⟩
  | record =>
    simp only [hc] at hr
    obtain rfl := Option.some_inj.mp hr
    refine ⟨rfl, rfl, rfl, ?_⟩
    intro e he
    obtain rfl := List.mem_singleton.mp he
    rfl
  | stopSelf =>
    simp only [hc] at hr
    cases hstop : TimerStop s t.handle with
    | none => simp only [hstop] at hr; simp at hr
    | some r2 =>
      simp only [hstop] at hr
      obtain rfl := Option.some_inj.mp (by simpa using hr)
      obtain ⟨ha, hb, hcc⟩ := TimerStop_frame s t.handle r2 hstop
      refine ⟨ha, hb, hcc, ?_⟩
      intro e he
      obtain rfl := List.mem_singleton.mp he
      rfl

theorem considerFiringTimer_frame (s : FT) (i : Nat) (r : FT × List Event)
    (hr : considerFiringTimer s i = some r) :
    r.1.pendQueue = s.pendQueue ∧ r.1.sysTickPeriod = s.sysTickPeriod ∧
    r.1.current = s.current ∧ (∀ e ∈ r.2, e.isFire = true) := by
  rw [considerFiringTimer] at hr
  cases hl : s.timers[i]? with
  | none =>
    simp only [hl] at hr
    obtain rfl := Option.some_inj.mp hr
    exact ⟨rfl, rfl, rfl, by simp⟩
  | some timer =>
    simp only [hl] at hr
    by_cases h1 : !timer.allocated
    · rw [if_pos h1] at hr
      obtain rfl := Option.some_inj.mp hr
      exact ⟨rfl, rfl, rfl, by simp⟩
    · rw [if_neg h1] at hr
      by_cases h2 : timer.period ≤ 0
      · rw [if_pos h2] at hr
        obtain rfl := Option.some_inj.mp hr
        exact ⟨rfl, rfl, rfl, by simp⟩
      · rw [if_neg h2] at hr
        by_cases h3 : timer.next ≤ 0
        · rw [if_pos h3] at hr
          obtain rfl := Option.some_inj.mp hr
          exact ⟨rfl, rfl, rfl, by simp⟩
        · rw [if_neg h3] at hr
          by_cases h4 : s.current ≥ timer.next
          · rw [if_pos h4] at hr
            cases hcb : invokeCallback s timer with
            | none => simp only [hcb] at hr; simp at hr
            | some rc =>
              obtain ⟨s1, evs⟩ := rc
              simp only [hcb] at hr
              obtain ⟨hfa, hfb, hfc, hfe⟩ :=
                invokeCallback_frame s timer (s1, evs) hcb
              cases hl2 : s1.timers[i]? with
              | none => simp only [hl2] at hr; simp at hr
              | some timer2 =>
                simp only [hl2] at hr
                by_cases h5 : timer2.behavior = Behavior.AutoReload
                · rw [if_pos h5] at hr
                  obtain rfl := Option.some_inj.mp hr
                  exact ⟨hfa, hfb, hfc, hfe⟩
                · rw [if_neg h5] at hr
                  obtain rfl := Option.some_inj.mp hr
                  exact ⟨hfa, hfb, hfc, hfe⟩
          · rw [if_neg h4] at hr
            obtain rfl := Option.some_inj.mp hr
            exact ⟨rfl, rfl, rfl, by simp⟩

theorem sweepFrom_frame : ∀ (n : Nat) (s : FT) (i : Nat)
    (r : FT × List Event), sweepFrom s i n = some r →
    r.1.pendQueue = s.pendQueue ∧ r.1.sysTickPeriod = s.sysTickPeriod ∧
    r.1.current = s.current ∧ (∀ e ∈ r.2, e.isFire = true) := by
  intro n
  induction n with
  | zero =>
    intro s i r hr
    obtain rfl := Option.some_inj.mp hr
    exact ⟨rfl, rfl, rfl, by simp⟩
  | succ n ih =>
    intro s i r hr
    rw [sweepFrom] at hr
    cases hc : considerFiringTimer s i with
    | none => simp only [hc] at hr; simp at hr
    | some r1 =>
      simp only [hc] at hr
      obtain ⟨s1, evs1⟩ := r1
      cases hs : sweepFrom s1 (i + 1) n with
      | none => simp only [hs] at hr; simp at hr
      | some r2 =>
        obtain ⟨s2, evs2⟩ := r2
        simp only [hs] at hr
        obtain rfl := Option.some_inj.mp hr
        obtain ⟨ha1, hb1, hc1, he1⟩ :=
          considerFiringTimer_frame s i (s1, evs1) hc
        obtain ⟨ha2, hb2, hc2, he2⟩ := ih s1 (i + 1) (s2, evs2) hs
        refine ⟨ha2.trans ha1, hb2.trans hb1, hc2.trans hc1, ?_⟩
        intro e he
        rcases List.mem_append.mp he with hm | hm
        · exact he1 e hm
        · exact he2 e hm

theorem sweep_frame (s : FT) (r : FT × List Event) (hr : sweep s = some r) :
    r.1.pendQueue = s.pendQueue ∧ r.1.sysTickPeriod = s.sysTickPeriod ∧
    r.1.current = s.current ∧ (∀ e ∈ r.2, e.isFire = true) :=
  sweepFrom_frame _ s 0 r hr

theorem moveLoopAux_frame : ∀ (f : Nat) (s : FT) (t : Int)
    (r : FT × List Event), moveLoopAux f s t = some r →
    r.1.pendQueue = s.pendQueue ∧ r.1.sysTickPeriod = s.sysTickPeriod ∧
    (∀ e ∈ r.2, e.isFire = true) := by
  intro f
  induction f with
  | zero =>
    intro s t r hr
    rw [moveLoopAux] at hr
    by_cases ht : 0 < t
    · rw [if_pos ht] at hr; simp at hr
    · rw [if_neg ht] at hr
      obtain rfl := Option.some_inj.mp hr
      exact ⟨rfl, rfl, by simp⟩
  | succ f ih =>
    intro s t r hr
    rw [moveLoopAux] at hr
    by_cases ht : 0 < t
    · rw [if_pos ht] at hr
      by_cases hq : s.sysTickPeriod ≤ 0
      · rw [if_pos hq] at hr; simp at hr
      · rw [if_neg hq] at hr
        cases hsw : sweep { s with
            current := s.current + min t s.sysTickPeriod } with
        | none => simp only [hsw] at hr; simp at hr
        | some r1 =>
          obtain ⟨s2, evs⟩ := r1
          simp only [hsw] at hr
          cases hml : moveLoopAux f s2 (t - min t s.sysTickPeriod) with
          | none => simp only [hml] at hr; simp at hr
          | some r2 =>
            obtain ⟨s3, evs2⟩ := r2
            simp only [hml] at hr
            obtain rfl := Option.some_inj.mp hr
            obtain ⟨ha1, hb1, _, he1⟩ :=
              sweep_frame _ (s2, evs) hsw
            obtain ⟨ha2, hb2, he2⟩ := ih s2 _ (s3, evs2) hml
            refine ⟨ha2.trans ha1, hb2.trans hb1, ?_⟩
            intro e he
            rcases List.mem_append.mp he with hm | hm
            · exact he1 e hm
            · exact he2 e hm
    · rw [if_neg ht] at hr
      obtain rfl := Option.some_inj.mp hr
      exact ⟨rfl, rfl, by simp⟩

theorem moveLoop_frame (s : FT) (t : Int) (r : FT × List Event)
    (hr : moveLoop s t = some r) :
    r.1.pendQueue = s.pendQueue ∧ r.1.sysTickPeriod = s.sysTickPeriod ∧
    (∀ e ∈ r.2, e.isFire = true) :=
  moveLoopAux_frame _ s t r hr

end FakeTimers

namespace FakeTimers

/-- C7 counterexample: with one pended function in the queue,
`MoveTimeForward 0` still drains: the pended function is invoked and
the queue is emptied, so a zero advance is not a no-op on the deferred
queue. -/
theorem C7_counterexample :
    (MoveTimeForward
        (PendFunctionCall (FT.mk0 10) (PendAct.record 3) 1 2).2 0).map
        (fun r => (r.2, r.1.pendQueue, r.1.current))
      = some ([Event.pendCalled 3 1 2], [], 0) := by decide

/-- C7 as amended: `MoveTimeForward` with a zero or negative amount
leaves the clock and every timer slot unchanged and fires no timer
callback — but it still drains the deferred-call queue first
(`ExecutePendables` runs before the `remaining > 0` check), invoking
the queued functions and leaving the queue empty. -/
theorem C7_advance_nonpositive (s : FT) (t : Int) (ht : t ≤ 0) :
    MoveTimeForward s t =
      some ((executePendables s).1, (executePendables s).2) ∧
    (executePendables s).1.timers = s.timers ∧
    (executePendables s).1.current = s.current ∧
    (executePendables s).1.sysTickPeriod = s.sysTickPeriod ∧
    (executePendables s).1.pendQueue = [] ∧
    (∀ e ∈ (executePendables s).2, e.isPend = true) := by
  have hml : moveLoop (executePendables s).1 t =
      some ((executePendables s).1, []) := by
    rw [moveLoop_eq, if_neg (by omega)]
  refine ⟨?_, (drainLoop_frame _ s).1, (drainLoop_frame _ s).2.1,
    (drainLoop_frame _ s).2.2, drainLoop_queue_nil _ s le_rfl,
    drainLoop_events_pend _ s⟩
  simp [MoveTimeForward, hml]

/-- C7 amended-claim witness at a concrete input. -/
theorem C7_witness :
    MoveTimeForward (FT.mk0 10) 0 =
      some ((executePendables (FT.mk0 10)).1,
        (executePendables (FT.mk0 10)).2) ∧
    (executePendables (FT.mk0 10)).1.timers = (FT.mk0 10).timers ∧
    (executePendables (FT.mk0 10)).1.current = (FT.mk0 10).current ∧
    (executePendables (FT.mk0 10)).1.sysTickPeriod =
      (FT.mk0 10).sysTickPeriod ∧
    (executePendables (FT.mk0 10)).1.pendQueue = [] ∧
    (∀ e ∈ (executePendables (FT.mk0 10)).2, e.isPend = true) :=
  C7_advance_nonpositive (FT.mk0 10) 0 (by decide)

/-- C1 counterexample: the queue holds one pendable that pends another
(pure) function call during its own invocation.  A single
`MoveTimeForward 0` invokes BOTH (the drain loops until the queue is
empty), and the queue ends empty — the nested entry does not wait for
the next time-advance call. -/
theorem C1_counterexample :
    (MoveTimeForward
        (PendFunctionCall (FT.mk0 10) (PendAct.pendAnother 1 2 0 0) 5 6).2
        0).map (fun r => (r.2, r.1.pendQueue))
      = some ([Event.pendCalled 1 5 6, Event.pendCalled 2 0 0], []) := by
  decide

/-- C1 as amended: `ExecutePendables` drains until the queue is empty,
so an entry enqueued (via `PendFunctionCall`) from inside the
invocation of an entry being drained IS invoked by the same drain pass:
within any single `MoveTimeForward` call, both the outer entry's and
the nested entry's invocations appear in the trace, and the queue is
empty afterwards. -/
theorem C1_nested_pend_same_pass (s : FT) (p : InternalPendable)
    (tg it ic ip : Nat) (hp : p ∈ s.pendQueue)
    (hpf : p.func = PendAct.pendAnother tg it ic ip) :
    Event.pendCalled tg p.context p.param2 ∈ (executePendables s).2 ∧
    Event.pendCalled it ic ip ∈ (executePendables s).2 ∧
    (executePendables s).1.pendQueue = [] ∧
    (∀ t r, MoveTimeForward s t = some r →
      Event.pendCalled tg p.context p.param2 ∈ r.2 ∧
      Event.pendCalled it ic ip ∈ r.2 ∧ r.1.pendQueue = []) := by
  obtain ⟨h1, h2⟩ :=
    drainLoop_mem_pendAnother (queueWeight s.pendQueue) s p tg it ic ip
      le_rfl hp hpf
  refine ⟨h1, h2, drainLoop_queue_nil _ s le_rfl, ?_⟩
  intro t r hr
  rw [MoveTimeForward] at hr
  cases hml : moveLoop (executePendables s).1 t with
  | none => simp [hml] at hr
  | some r2 =>
    obtain ⟨s2, evs2⟩ := r2
    simp only [hml] at hr
    obtain rfl := Option.some_inj.mp hr
    obtain ⟨hqp, -, -⟩ := moveLoop_frame _ t (s2, evs2) hml
    refine ⟨List.mem_append_left _ h1, List.mem_append_left _ h2, ?_⟩
    show s2.pendQueue = []
    rw [hqp]
    exact drainLoop_queue_nil _ s le_rfl

/-- The concrete start state for the C1 witness: one queued pendable
that pends another. -/
def c1State : FT :=
  (PendFunctionCall (FT.mk0 10) (PendAct.pendAnother 1 2 0 0) 5 6).2

/-- C1 amended-claim witness at a concrete input. -/
theorem C1_witness :
    Event.pendCalled 1 5 6 ∈ (executePendables c1State).2 ∧
    Event.pendCalled 2 0 0 ∈ (executePendables c1State).2 ∧
    (executePendables c1State).1.pendQueue = [] :=
  have h := C1_nested_pend_same_pass c1State
    ⟨PendAct.pendAnother 1 2 0 0, 5, 6⟩ 1 2 0 0 (by decide) rfl
  ⟨h.1, h.2.1, h.2.2.1⟩

/-- C8: in every time-advance call, the deferred calls present in the
queue at call entry (all with non-null functions) are invoked in FIFO
enqueue order — their invocation events are, in order, the first events
of the call's trace — followed first by further pend-invocation events
(entries enqueued during the drain) and then only timer-callback
events: every snapshot invocation happens strictly before any timer
callback of the same call. -/
theorem C8_fifo_before_fires (s : FT) (t : Int)
    (hnn : ∀ p ∈ s.pendQueue, p.func ≠ PendAct.null) :
    ∀ r, MoveTimeForward s t = some r →
      ∃ extra post, r.2 = s.pendQueue.map entryEvent ++ extra ++ post ∧
        (∀ e ∈ extra, e.isPend = true) ∧
        (∀ e ∈ post, e.isFire = true) := by
  intro r hr
  obtain ⟨extra, hex⟩ := drainLoop_fifo s.pendQueue
    (queueWeight s.pendQueue) s [] (by simp) le_rfl hnn
  have hex' : (executePendables s).2 = s.pendQueue.map entryEvent ++ extra :=
    hex
  rw [MoveTimeForward] at hr
  cases hml : moveLoop (executePendables s).1 t with
  | none => simp [hml] at hr
  | some r2 =>
    obtain ⟨s2, evs2⟩ := r2
    simp only [hml] at hr
    obtain rfl := Option.some_inj.mp hr
    obtain ⟨-, -, hfire⟩ := moveLoop_frame _ t (s2, evs2) hml
    refine ⟨extra, evs2, ?_, ?_, hfire⟩
    · show (executePendables s).2 ++ evs2 =
        s.pendQueue.map entryEvent ++ extra ++ evs2
      rw [hex', List.append_assoc]
    · intro e he
      refine drainLoop_events_pend (queueWeight s.pendQueue) s e ?_
      show e ∈ (executePendables s).2
      rw [hex']
      exact List.mem_append_right _ he

/-- The concrete start state for the C8 witness: two pure pendables
queued, one due started timer. -/
def c8State : FT :=
  { timers := [{ name := 0, period := 10, behavior := Behavior.SingleShot,
                 context := 7, callback := CbAct.record, handle := 1,
                 allocated := true, next := 10 }]
    sysTickPeriod := 10
    current := 0
    pendQueue := [⟨PendAct.record 1, 11, 12⟩, ⟨PendAct.record 2, 21, 22⟩] }

/-- The concrete result of `MoveTimeForward c8State 10`: both pendables
invoked in enqueue order, then the due timer fires once. -/
def c8Result : FT × List Event :=
  ({ timers := [{ name := 0, period := 10, behavior := Behavior.SingleShot,
                  context := 7, callback := CbAct.record, handle := 1,
                  allocated := true, next := 0 }]
     sysTickPeriod := 10
     current := 10
     pendQueue := [] },
   [Event.pendCalled 1 11 12, Event.pendCalled 2 21 22,
    Event.timerFired 1 7])

/-- C8 witness at a concrete input. -/
theorem C8_witness :
    ∃ extra post,
      c8Result.2 = c8State.pendQueue.map entryEvent ++ extra ++ post ∧
      (∀ e ∈ extra, e.isPend = true) ∧
      (∀ e ∈ post, e.isFire = true) :=
  C8_fifo_before_fires c8State 10 (by decide) c8Result (by decide)

end FakeTimers

namespace FakeTimers

/-! ## Sweep lemmas for states with a single allocated slot -/

theorem considerFiringTimer_unalloc (s : FT) (i : Nat)
    (h : ∀ u, s.timers[i]? = some u → u.allocated = false) :
    considerFiringTimer s i = some (s, []) := by
  rw [considerFiringTimer]
  cases hl : s.timers[i]? with
  | none => rfl
  | some u => simp [h u hl]

theorem sweepFrom_skip : ∀ (n : Nat) (s : FT) (i0 : Nat),
    (∀ j u, i0 ≤ j → j < i0 + n → s.timers[j]? = some u →
      u.allocated = false) →
    sweepFrom s i0 n = some (s, []) := by
  intro n
  induction n with
  | zero => intro s i0 _; rfl
  | succ n ih =>
    intro s i0 h
    have h0 := considerFiringTimer_unalloc s i0
      (fun u hu => h i0 u le_rfl (by omega) hu)
    have h1 := ih s (i0 + 1)
      (fun j u hj1 hj2 hu => h j u (by omega) (by omega) hu)
    rw [sweepFrom]
    simp [h0, h1]

theorem sweepFrom_split : ∀ (n1 n2 : Nat) (s : FT) (i0 : Nat),
    sweepFrom s i0 (n1 + n2) =
      match sweepFrom s i0 n1 with
      | none => none
      | some (s1, e1) =>
        match sweepFrom s1 (i0 + n1) n2 with
        | none => none
        | some (s2, e2) => some (s2, e1 ++ e2) := by
  intro n1
  induction n1 with
  | zero =>
    intro n2 s i0
    rw [Nat.zero_add]
    cases h : sweepFrom s i0 n2 with
    | none => simp [sweepFrom, h]
    | some r =>
      obtain ⟨s2, e2⟩ := r
      simp [sweepFrom, h]
  | succ n1 ih =>
    intro n2 s i0
    rw [Nat.succ_add]
    cases hc : considerFiringTimer s i0 with
    | none => simp [sweepFrom, hc]
    | some r1 =>
      obtain ⟨s1, e1⟩ := r1
      have h2 := ih n2 s1 (i0 + 1)
      have hre : i0 + 1 + n1 = i0 + (n1 + 1) := by omega
      rw [hre] at h2
      cases h1 : sweepFrom s1 (i0 + 1) n1 with
      | none =>
        simp only [h1] at h2
        simp [sweepFrom, hc, h1, h2]
      | some r2 =>
        obtain ⟨s2, e2⟩ := r2
        simp only [h1] at h2
        cases h3 : sweepFrom s2 (i0 + (n1 + 1)) n2 with
        | none =>
          simp only [h3] at h2
          simp [sweepFrom, hc, h1, h2, h3]
        | some r3 =>
          obtain ⟨s3, e3⟩ := r3
          simp only [h3] at h2
          simp [sweepFrom, hc, h1, h2, h3, List.append_assoc]

/-- When a fired slot's `stopSelf` callback targets the slot's own
index (its stored handle is `i + 1`), `considerFiringTimer` at `i`
preserves the slot count and leaves every other slot untouched. -/
theorem considerFiringTimer_other_slots (s : FT) (i : Nat)
    (r : FT × List Event) (hr : considerFiringTimer s i = some r)
    (hh : ∀ u, s.timers[i]? = some u → u.callback = CbAct.stopSelf →
      u.handle = i + 1) :
    r.1.timers.length = s.timers.length ∧
    ∀ j, j ≠ i → r.1.timers[j]? = s.timers[j]? := by
  rw [considerFiringTimer] at hr
  cases hl : s.timers[i]? with
  | none =>
    simp only [hl] at hr
    obtain rfl := Option.some_inj.mp hr
    exact ⟨rfl, fun _ _ => rfl⟩
  | some timer =>
    have hilen : i < s.timers.length := by
      by_contra hcon
      rw [List.getElem?_eq_none (by omega)] at hl
      exact Option.noConfusion hl
    simp only [hl] at hr
    by_cases h1 : !timer.allocated
    · rw [if_pos h1] at hr
      obtain rfl := Option.some_inj.mp hr
      exact ⟨rfl, fun _ _ => rfl⟩
    · rw [if_neg h1] at hr
      by_cases h2 : timer.period ≤ 0
      · rw [if_pos h2] at hr
        obtain rfl := Option.some_inj.mp hr
        exact ⟨rfl, fun _ _ => rfl⟩
      · rw [if_neg h2] at hr
        by_cases h3 : timer.next ≤ 0
        · rw [if_pos h3] at hr
          obtain rfl := Option.some_inj.mp hr
          exact ⟨rfl, fun _ _ => rfl⟩
        · rw [if_neg h3] at hr
          by_cases h4 : s.current ≥ timer.next
          · rw [if_pos h4] at hr
            have hcases : invokeCallback s timer = some (s, []) ∨
                invokeCallback s timer = some (s,
                  [Event.timerFired timer.handle timer.context]) ∨
                invokeCallback s timer = some
                  ({ s with timers := (s.timers.set i
                      { timer with next := 0 }) },
                   [Event.timerFired timer.handle timer.context]) := by
              cases hcb : timer.callback with
              | null => exact Or.inl (by rw [invokeCallback, hcb])
              | record => exact Or.inr (Or.inl (by rw [invokeCallback, hcb]))
              | stopSelf =>
                refine Or.inr (Or.inr ?_)
                have hhd := hh timer hl hcb
                have hstop : TimerStop s timer.handle =
                    some (true, { s with timers := (s.timers.set i
                      { timer with next := 0 }) }) := by
                  rw [TimerStop, hhd, if_neg (by omega), if_neg (by omega),
                    uidx_eq_sub_one (by omega), Nat.add_sub_cancel, hl]
                  simp [hhd]
                rw [invokeCallback, hcb, hstop]
                simp [hcb]
            rcases hcases with hcb | hcb | hcb
            · simp only [hcb, hl] at hr
              by_cases h5 : timer.behavior = Behavior.AutoReload
              · rw [if_pos h5] at hr
                obtain rfl := Option.some_inj.mp hr
                exact ⟨by simp, fun j hj =>
                  List.getElem?_set_ne (fun hij => hj hij.symm)⟩
              · rw [if_neg h5] at hr
                obtain rfl := Option.some_inj.mp hr
                exact ⟨by simp, fun j hj =>
                  List.getElem?_set_ne (fun hij => hj hij.symm)⟩
            · simp only [hcb, hl] at hr
              by_cases h5 : timer.behavior = Behavior.AutoReload
              · rw [if_pos h5] at hr
                obtain rfl := Option.some_inj.mp hr
                exact ⟨by simp, fun j hj =>
                  List.getElem?_set_ne (fun hij => hj hij.symm)⟩
              · rw [if_neg h5] at hr
                obtain rfl := Option.some_inj.mp hr
                exact ⟨by simp, fun j hj =>
                  List.getElem?_set_ne (fun hij => hj hij.symm)⟩
            · simp only [hcb, List.getElem?_set_eq_of_lt _ hilen] at hr
              by_cases h5 : timer.behavior = Behavior.AutoReload
              · rw [if_pos h5] at hr
                obtain rfl := Option.some_inj.mp hr
                refine ⟨by simp, fun j hj => ?_⟩
                rw [List.getElem?_set_ne (fun hij => hj hij.symm),
                  List.getElem?_set_ne (fun hij => hj hij.symm)]
              · rw [if_neg h5] at hr
                obtain rfl := Option.some_inj.mp hr
                refine ⟨by simp, fun j hj => ?_⟩
                rw [List.getElem?_set_ne (fun hij => hj hij.symm),
                  List.getElem?_set_ne (fun hij => hj hij.symm)]
          · rw [if_neg h4] at hr
            obtain rfl := Option.some_inj.mp hr
            exact ⟨rfl, fun _ _ => rfl⟩

end FakeTimers

namespace FakeTimers

/-- In a state where every slot other than `i` is unallocated (and
slot `i`, if its callback is `stopSelf`, stores its own handle), the
full sweep acts exactly as `ConsiderFiringTimer` on slot `i`. -/
theorem sweep_only (s : FT) (i : Nat) (hi : i < s.timers.length)
    (hoth : ∀ j u, j ≠ i → s.timers[j]? = some u → u.allocated = false)
    (hh : ∀ u, s.timers[i]? = some u → u.callback = CbAct.stopSelf →
      u.handle = i + 1) :
    sweep s = considerFiringTimer s i := by
  rw [sweep]
  have hlen : s.timers.length = i + (1 + (s.timers.length - i - 1)) := by
    omega
  rw [hlen, sweepFrom_split i (1 + (s.timers.length - i - 1)) s 0,
    sweepFrom_skip i s 0 (fun j u hj1 hj2 hu => hoth j u (by omega) hu)]
  simp only [Nat.zero_add]
  rw [Nat.add_comm 1 (s.timers.length - i - 1)]
  cases hc : considerFiringTimer s i with
  | none => simp [sweepFrom, hc]
  | some r1 =>
    obtain ⟨s1, e1⟩ := r1
    obtain ⟨hlen1, hpres⟩ := considerFiringTimer_other_slots s i (s1, e1) hc hh
    have hskip : sweepFrom s1 (i + 1) (s.timers.length - i - 1) =
        some (s1, []) := by
      refine sweepFrom_skip _ s1 (i + 1) (fun j u hj1 hj2 hu => ?_)
      refine hoth j u (by omega) ?_
      rw [← hpres j (by omega)]
      exact hu
    simp [sweepFrom, hc, hskip]

/-- `ConsiderFiringTimer` on a due slot with a pure (`record`)
callback: the callback event is emitted and `next` is re-anchored
(AutoReload) or zeroed (SingleShot). -/
theorem considerFiringTimer_fire (s : FT) (i : Nat) (t : Timer)
    (hl : s.timers[i]? = some t) (ha : t.allocated = true)
    (hp : 0 < t.period) (hn : 0 < t.next) (hdue : t.next ≤ s.current)
    (hcb : t.callback = CbAct.record) :
    considerFiringTimer s i =
      some ({ s with timers := (s.timers.set i { t with next :=
          if t.behavior = Behavior.AutoReload then s.current + t.period
          else 0 }) },
        [Event.timerFired t.handle t.context]) := by
  simp only [considerFiringTimer, hl]
  rw [if_neg (by simp [ha]), if_neg (by omega), if_neg (by omega),
    if_pos (by omega)]
  simp only [invokeCallback, hcb, hl]
  by_cases hb : t.behavior = Behavior.AutoReload
  · simp [hb]
  · simp [hb]

/-- `ConsiderFiringTimer` on a due slot whose callback stops its own
handle: the callback's `TimerStop` zeroes `next`, but for AutoReload
the reload assignment after the callback overwrites it with
`mCurrent + period`, re-arming the timer; only for SingleShot does the
slot end inactive. -/
theorem considerFiringTimer_fire_stopSelf (s : FT) (i : Nat) (t : Timer)
    (hl : s.timers[i]? = some t) (ha : t.allocated = true)
    (hp : 0 < t.period) (hn : 0 < t.next) (hdue : t.next ≤ s.current)
    (hcb : t.callback = CbAct.stopSelf) (hhd : t.handle = i + 1) :
    considerFiringTimer s i =
      some ({ s with timers := (s.timers.set i { t with next :=
          if t.behavior = Behavior.AutoReload then s.current + t.period
          else 0 }) },
        [Event.timerFired t.handle t.context]) := by
  have hilen : i < s.timers.length := by
    by_contra hcon
    rw [List.getElem?_eq_none (by omega)] at hl
    exact Option.noConfusion hl
  have hstop : TimerStop s t.handle =
      some (true, { s with timers := (s.timers.set i
        { t with next := 0 }) }) := by
    rw [TimerStop, hhd, if_neg (by omega), if_neg (by omega),
      uidx_eq_sub_one (by omega), Nat.add_sub_cancel, hl]
    simp [hhd]
  simp only [considerFiringTimer, hl]
  rw [if_neg (by simp [ha]), if_neg (by omega), if_neg (by omega),
    if_pos (by omega)]
  simp only [invokeCallback, hcb, hstop, Option.map]
  rw [List.getElem?_set_eq_of_lt _ hilen]
  by_cases hb : t.behavior = Behavior.AutoReload
  · simp [hb, List.set_set]
  · simp [hb, List.set_set]

/-- `ConsiderFiringTimer` skips an unallocated, zero-period, inactive,
or not-yet-due slot. -/
theorem considerFiringTimer_skip (s : FT) (i : Nat) (t : Timer)
    (hl : s.timers[i]? = some t)
    (h : t.allocated = false ∨ t.period ≤ 0 ∨ t.next ≤ 0 ∨
      s.current < t.next) :
    considerFiringTimer s i = some (s, []) := by
  simp only [considerFiringTimer, hl]
  rcases h with h | h | h | h
  · rw [if_pos (by simp [h])]
  · by_cases h1 : !t.allocated
    · rw [if_pos h1]
    · rw [if_neg h1, if_pos h]
  · by_cases h1 : !t.allocated
    · rw [if_pos h1]
    · rw [if_neg h1]
      by_cases h2 : t.period ≤ 0
      · rw [if_pos h2]
      · rw [if_neg h2, if_pos h]
  · by_cases h1 : !t.allocated
    · rw [if_pos h1]
    · rw [if_neg h1]
      by_cases h2 : t.period ≤ 0
      · rw [if_pos h2]
      · rw [if_neg h2]
        by_cases h3 : t.next ≤ 0
        · rw [if_pos h3]
        · rw [if_neg h3, if_neg (by omega)]

end FakeTimers

namespace FakeTimers

/-- C6 counterexample: quantum 10, period-10 AutoReload timer whose
callback stops its own handle, started at 0.  `MoveTimeForward 20`
fires it TWICE (at t=10 and t=20) and leaves it active with
`next = 30`: the reload assignment after the callback overwrites the
callback's `TimerStop`, so the mutation does not take effect at the
next quantum. -/
theorem C6_counterexample :
    ((TimerStart (TimerCreate (FT.mk0 10) 0 10 Behavior.AutoReload 3
        CbAct.stopSelf).2 1).map
      (fun r => (MoveTimeForward r.2 20).map
        (fun q => (q.2, (q.1.timers.getD 0 {}).next, TimerIsActive q.1 1))))
      = some (some ([Event.timerFired 1 3, Event.timerFired 1 3], 30,
          some true)) := by decide

/-- C6 as amended: when a due timer's callback calls `TimerStop` on its
own handle, the sweep still finishes the firing: for SingleShot the
slot ends inactive (`next = 0`, as single-shot expiry would anyway),
but for AutoReload the reload assignment executed after the callback
overwrites the stop with `next = mCurrent + period`, leaving the timer
ACTIVE — it fires again at subsequent periods until stopped from
outside a firing. -/
theorem C6_selfStop_behavior (s : FT) (i : Nat) (t : Timer)
    (hl : s.timers[i]? = some t)
    (hoth : ∀ j u, j ≠ i → s.timers[j]? = some u → u.allocated = false)
    (ha : t.allocated = true) (hcb : t.callback = CbAct.stopSelf)
    (hhd : t.handle = i + 1) (hp : 0 < t.period) (hn : 0 < t.next)
    (hdue : t.next ≤ s.current) :
    sweep s = some ({ s with timers := (s.timers.set i { t with next :=
        if t.behavior = Behavior.AutoReload then s.current + t.period
        else 0 }) }, [Event.timerFired t.handle t.context]) ∧
    (t.behavior = Behavior.AutoReload →
      TimerIsActive { s with timers := (s.timers.set i { t with next :=
        s.current + t.period }) } (i + 1) = some true) ∧
    (t.behavior = Behavior.SingleShot →
      TimerIsActive { s with timers := (s.timers.set i
        { t with next := 0 }) } (i + 1) = some false) := by
  have hi : i < s.timers.length := by
    by_contra hcon
    rw [List.getElem?_eq_none (by omega)] at hl
    exact Option.noConfusion hl
  refine ⟨?_, ?_, ?_⟩
  · rw [sweep_only s i hi hoth (fun u hu _ => by
        rw [hl] at hu
        obtain rfl := Option.some_inj.mp hu
        exact hhd)]
    exact considerFiringTimer_fire_stopSelf s i t hl ha hp hn hdue hcb hhd
  · intro hb
    have hne : s.current + t.period ≠ 0 := by omega
    rw [TimerIsActive, uidx_eq_sub_one (by omega), Nat.add_sub_cancel]
    show (match (s.timers.set i { t with next := s.current + t.period })[i]?
        with
      | none => none
      | some timer =>
        if !timer.allocated then some false
        else some (decide (timer.next ≠ 0))) = some true
    rw [List.getElem?_set_eq_of_lt _ hi]
    simp [ha, hne]
  · intro hb
    rw [TimerIsActive, uidx_eq_sub_one (by omega), Nat.add_sub_cancel]
    show (match (s.timers.set i { t with next := 0 })[i]? with
      | none => none
      | some timer =>
        if !timer.allocated then some false
        else some (decide (timer.next ≠ 0))) = some false
    rw [List.getElem?_set_eq_of_lt _ hi]
    simp [ha]

/-- The concrete start state for the C6 witness: one due AutoReload
slot whose callback stops its own handle. -/
def c6State : FT :=
  { timers := [{ name := 0, period := 10, behavior := Behavior.AutoReload,
                 context := 3, callback := CbAct.stopSelf, handle := 1,
                 allocated := true, next := 10 }]
    sysTickPeriod := 10
    current := 10
    pendQueue := [] }

/-- C6 amended-claim witness at a concrete input. -/
theorem C6_witness :
    sweep c6State = some ({ c6State with
      timers := (c6State.timers.set 0
        { name := 0, period := 10, behavior := Behavior.AutoReload,
          context := 3, callback := CbAct.stopSelf, handle := 1,
          allocated := true,
          next := if Behavior.AutoReload = Behavior.AutoReload
            then 10 + 10 else 0 }) }, [Event.timerFired 1 3]) ∧
    (Behavior.AutoReload = Behavior.AutoReload →
      TimerIsActive { c6State with timers := (c6State.timers.set 0
        { name := 0, period := 10, behavior := Behavior.AutoReload,
          context := 3, callback := CbAct.stopSelf, handle := 1,
          allocated := true, next := 10 + 10 }) } 1 = some true) ∧
    (Behavior.AutoReload = Behavior.SingleShot →
      TimerIsActive { c6State with timers := (c6State.timers.set 0
        { name := 0, period := 10, behavior := Behavior.AutoReload,
          context := 3, callback := CbAct.stopSelf, handle := 1,
          allocated := true, next := 0 }) } 1 = some false) :=
  C6_selfStop_behavior c6State 0
    { name := 0, period := 10, behavior := Behavior.AutoReload,
      context := 3, callback := CbAct.stopSelf, handle := 1,
      allocated := true, next := 10 }
    (by decide)
    (by
      intro j u hj hu
      rw [List.getElem?_eq_none (by simp [c6State]; omega)] at hu
      exact Option.noConfusion hu)
    (by decide) (by decide) (by decide) (by decide) (by decide) (by decide)

end FakeTimers

namespace FakeTimers

theorem executePendables_nil {s : FT} (hq : s.pendQueue = []) :
    executePendables s = (s, []) := by
  show drainLoop (queueWeight s.pendQueue) s = (s, [])
  rw [hq]
  rfl

theorem MoveTimeForward_nilQueue {s : FT} (hq : s.pendQueue = [])
    (t : Int) : MoveTimeForward s t = moveLoop s t := by
  rw [MoveTimeForward, executePendables_nil hq]
  cases hm : moveLoop s t with
  | none => rfl
  | some r => simp

/-- The stepping loop over a state whose only allocated slot is
inactive (`next ≤ 0`): the clock advances, nothing fires, nothing else
changes. -/
theorem moveLoop_inactive : ∀ (f : Nat) (r : Int), r.toNat ≤ f → 0 ≤ r →
    ∀ (s : FT) (i : Nat) (t : Timer), s.timers[i]? = some t →
    (∀ j u, j ≠ i → s.timers[j]? = some u → u.allocated = false) →
    (t.callback = CbAct.stopSelf → t.handle = i + 1) →
    t.next ≤ 0 → 0 < s.sysTickPeriod →
    moveLoop s r = some ({ s with current := s.current + r }, []) := by
  intro f
  induction f with
  | zero =>
    intro r hf hr0 s i t hl hoth hh hn hQ
    have : r = 0 := by omega
    subst this
    rw [moveLoop_eq, if_neg (by omega)]
    simp
  | succ f ih =>
    intro r hf hr0 s i t hl hoth hh hn hQ
    by_cases hr : 0 < r
    · have hi : i < s.timers.length := by
        by_contra hcon
        rw [List.getElem?_eq_none (by omega)] at hl
        exact Option.noConfusion hl
      have hd1 : 1 ≤ min r s.sysTickPeriod := by omega
      have hdr : min r s.sysTickPeriod ≤ r := by omega
      rw [moveLoop_eq, if_pos hr, if_neg (by omega)]
      have hsw : sweep { s with
          current := s.current + min r s.sysTickPeriod } =
          some ({ s with current := s.current + min r s.sysTickPeriod },
            []) := by
        rw [sweep_only
          { s with current := s.current + min r s.sysTickPeriod } i
          (by simpa using hi)
          (fun j u hj hu => hoth j u hj hu)
          (fun u hu hcb => by
            rw [show ({ s with current := s.current + min r s.sysTickPeriod }
              : FT).timers = s.timers from rfl, hl] at hu
            obtain rfl := Option.some_inj.mp hu
            exact hh hcb)]
        exact considerFiringTimer_skip _ i t hl (Or.inr (Or.inr (Or.inl hn)))
      have hrec := ih (r - min r s.sysTickPeriod) (by omega) (by omega)
        { s with current := s.current + min r s.sysTickPeriod } i t hl hoth
        hh hn (by simpa using hQ)
      have harith : s.current + min r s.sysTickPeriod +
          (r - min r s.sysTickPeriod) = s.current + r := by ring
      rw [hsw]
      simp only [hrec, harith]
      simp
    · rw [moveLoop_eq, if_neg hr]
      have : r = 0 := by omega
      subst this
      simp

/-- The stepping loop over a state whose only allocated slot is an
armed single-shot `record`-callback timer: if the due time falls within
the advance it fires exactly once and deactivates; otherwise only the
clock moves. -/
theorem moveLoop_singleShot : ∀ (f : Nat) (r : Int), r.toNat ≤ f →
    0 ≤ r → ∀ (s : FT) (i : Nat) (t : Timer), s.timers[i]? = some t →
    (∀ j u, j ≠ i → s.timers[j]? = some u → u.allocated = false) →
    t.allocated = true → t.callback = CbAct.record →
    t.behavior = Behavior.SingleShot → 0 < t.period → 0 < t.next →
    s.current < t.next → 0 < s.sysTickPeriod →
    (t.next ≤ s.current + r →
      moveLoop s r = some ({ s with
        current := s.current + r,
        timers := (s.timers.set i { t with next := 0 }) },
        [Event.timerFired t.handle t.context])) ∧
    (s.current + r < t.next →
      moveLoop s r = some ({ s with current := s.current + r }, [])) := by
  intro f
  induction f with
  | zero =>
    intro r hf hr0 s i t hl hoth ha hcb hb hp hn hlt hQ
    have : r = 0 := by omega
    subst this
    constructor
    · intro hfire
      omega
    · intro _
      rw [moveLoop_eq, if_neg (by omega)]
      simp
  | succ f ih =>
    intro r hf hr0 s i t hl hoth ha hcb hb hp hn hlt hQ
    by_cases hr : 0 < r
    · have hi : i < s.timers.length := by
        by_contra hcon
        rw [List.getElem?_eq_none (by omega)] at hl
        exact Option.noConfusion hl
      have hd1 : 1 ≤ min r s.sysTickPeriod := by omega
      have hdr : min r s.sysTickPeriod ≤ r := by omega
      have hnostop : ∀ u, s.timers[i]? = some u →
          u.callback = CbAct.stopSelf → u.handle = i + 1 := by
        intro u hu hcbu
        rw [hl] at hu
        obtain rfl := Option.some_inj.mp hu
        rw [hcb] at hcbu
        exact CbAct.noConfusion hcbu
      by_cases hdue : t.next ≤ s.current + min r s.sysTickPeriod
      · -- fires at this quantum step
        have hsw : sweep { s with
            current := s.current + min r s.sysTickPeriod } =
            some ({ s with
              current := s.current + min r s.sysTickPeriod,
              timers := (s.timers.set i { t with next := 0 }) },
              [Event.timerFired t.handle t.context]) := by
          rw [sweep_only
            { s with current := s.current + min r s.sysTickPeriod } i
            (by simpa using hi) hoth hnostop,
            considerFiringTimer_fire
              { s with current := s.current + min r s.sysTickPeriod } i t
              hl ha hp (by omega) (by simpa using hdue) hcb]
          rw [hb]
          rfl
        have hrec := moveLoop_inactive f (r - min r s.sysTickPeriod)
          (by omega) (by omega)
          { s with
            current := s.current + min r s.sysTickPeriod,
            timers := (s.timers.set i { t with next := 0 }) } i
          { t with next := 0 }
          (by
            show (s.timers.set i { t with next := 0 })[i]? = _
            rw [List.getElem?_set_eq_of_lt _ hi])
          (by
            intro j u hj hu
            refine hoth j u hj ?_
            rw [← List.getElem?_set_ne
              (fun hij => hj hij.symm) (l := s.timers)
              (a := { t with next := 0 })]
            exact hu)
          (by
            intro hcbu
            rw [show ({ t with next := 0 } : Timer).callback = t.callback
              from rfl, hcb] at hcbu
            exact CbAct.noConfusion hcbu)
          (by show (0 : Int) ≤ 0; omega)
          (by simpa using hQ)
        have harith : s.current + min r s.sysTickPeriod +
            (r - min r s.sysTickPeriod) = s.current + r := by ring
        constructor
        · intro _
          rw [moveLoop_eq, if_pos hr, if_neg (by omega), hsw]
          simp only [hrec, harith]
          simp
        · intro hnof
          omega
      · -- not yet due at this step
        have hsw : sweep { s with
            current := s.current + min r s.sysTickPeriod } =
            some ({ s with
              current := s.current + min r s.sysTickPeriod }, []) := by
          rw [sweep_only
            { s with current := s.current + min r s.sysTickPeriod } i
            (by simpa using hi) hoth hnostop]
          exact considerFiringTimer_skip _ i t hl
            (Or.inr (Or.inr (Or.inr (by simpa using by omega))))
        have hrec := ih (r - min r s.sysTickPeriod) (by omega) (by omega)
          { s with current := s.current + min r s.sysTickPeriod } i t hl
          hoth ha hcb hb hp hn (by simpa using by omega)
          (by simpa using hQ)
        have harith : s.current + min r s.sysTickPeriod +
            (r - min r s.sysTickPeriod) = s.current + r := by ring
        constructor
        · intro hfire
          rw [moveLoop_eq, if_pos hr, if_neg (by omega), hsw]
          simp only [hrec.1 (by simpa using by omega), harith]
          simp
        · intro hnof
          rw [moveLoop_eq, if_pos hr, if_neg (by omega), hsw]
          simp only [hrec.2 (by simpa using by omega), harith]
          simp
    · have : r = 0 := by omega
      subst this
      constructor
      · intro hfire
        omega
      · intro _
        rw [moveLoop_eq, if_neg (by omega)]
        simp

end FakeTimers

namespace FakeTimers

/-- A run of advance calls over a state whose only allocated slot is
inactive: nothing fires, only the clock moves. -/
theorem runAdvances_inactive : ∀ (l : List Int) (s : FT) (i : Nat)
    (t : Timer), s.timers[i]? = some t →
    (∀ j u, j ≠ i → s.timers[j]? = some u → u.allocated = false) →
    (t.callback = CbAct.stopSelf → t.handle = i + 1) →
    t.next ≤ 0 → 0 < s.sysTickPeriod → s.pendQueue = [] →
    (∀ a ∈ l, 0 ≤ a) →
    runAdvances s l = some ({ s with current := s.current + l.sum },
      []) := by
  intro l
  induction l with
  | nil =>
    intro s i t _ _ _ _ _ _ _
    simp [runAdvances]
  | cons a l' ih =>
    intro s i t hl hoth hh hn hQ hq hnn
    have hmv : MoveTimeForward s a =
        some ({ s with current := s.current + a }, []) := by
      rw [MoveTimeForward_nilQueue hq]
      exact moveLoop_inactive a.toNat a le_rfl
        (hnn a (List.mem_cons_self a l')) s i t hl hoth hh hn hQ
    have hih := ih { s with current := s.current + a } i t hl hoth hh hn
      (by simpa using hQ) (by simpa using hq)
      (fun b hb => hnn b (List.mem_cons_of_mem _ hb))
    simp only [runAdvances, hmv, hih]
    have : s.current + a + l'.sum = s.current + (a :: l').sum := by
      rw [List.sum_cons]
      ring
    rw [this]
    simp

/-- A run of nonnegative advance calls over a state whose only
allocated slot is an armed single-shot `record`-callback timer: it
fires exactly once if and only if the total advance reaches its due
time, and is inactive afterwards. -/
theorem runAdvances_singleShot : ∀ (l : List Int) (s : FT) (i : Nat)
    (t : Timer), s.timers[i]? = some t →
    (∀ j u, j ≠ i → s.timers[j]? = some u → u.allocated = false) →
    t.allocated = true → t.callback = CbAct.record →
    t.behavior = Behavior.SingleShot → 0 < t.period → 0 < t.next →
    s.current < t.next → 0 < s.sysTickPeriod → s.pendQueue = [] →
    (∀ a ∈ l, 0 ≤ a) →
    (t.next ≤ s.current + l.sum →
      runAdvances s l = some ({ s with
        current := s.current + l.sum,
        timers := (s.timers.set i { t with next := 0 }) },
        [Event.timerFired t.handle t.context])) ∧
    (s.current + l.sum < t.next →
      runAdvances s l = some ({ s with current := s.current + l.sum },
        [])) := by
  intro l
  induction l with
  | nil =>
    intro s i t hl hoth ha hcb hb hp hn hlt hQ hq hnn
    constructor
    · intro hfire
      simp only [List.sum_nil] at hfire
      omega
    · intro _
      simp [runAdvances]
  | cons a l' ih =>
    intro s i t hl hoth ha hcb hb hp hn hlt hQ hq hnn
    have hi : i < s.timers.length := by
      by_contra hcon
      rw [List.getElem?_eq_none (by omega)] at hl
      exact Option.noConfusion hl
    have ha0 : 0 ≤ a := hnn a (List.mem_cons_self a l')
    have msl := moveLoop_singleShot a.toNat a le_rfl ha0 s i t hl hoth ha
      hcb hb hp hn hlt hQ
    by_cases hdue1 : t.next ≤ s.current + a
    · -- fires during the first call of the run
      have hmv : MoveTimeForward s a = some ({ s with
          current := s.current + a,
          timers := (s.timers.set i { t with next := 0 }) },
          [Event.timerFired t.handle t.context]) := by
        rw [MoveTimeForward_nilQueue hq]
        exact msl.1 hdue1
      have htail := runAdvances_inactive l'
        { s with current := s.current + a,
                 timers := (s.timers.set i { t with next := 0 }) } i
        { t with next := 0 }
        (by
          show (s.timers.set i { t with next := 0 })[i]? = _
          rw [List.getElem?_set_eq_of_lt _ hi])
        (by
          intro j u hj hu
          refine hoth j u hj ?_
          rw [← List.getElem?_set_ne
            (fun hij => hj hij.symm) (l := s.timers)
            (a := { t with next := 0 })]
          exact hu)
        (by
          intro hcbu
          rw [show ({ t with next := 0 } : Timer).callback = t.callback
            from rfl, hcb] at hcbu
          exact CbAct.noConfusion hcbu)
        (by show (0 : Int) ≤ 0; omega)
        (by simpa using hQ) (by simpa using hq)
        (fun b hb => hnn b (List.mem_cons_of_mem _ hb))
      have hsums : ∀ b ∈ l', (0 : Int) ≤ b :=
        fun b hb => hnn b (List.mem_cons_of_mem _ hb)
      have hsum0 : 0 ≤ l'.sum := List.sum_nonneg hsums
      constructor
      · intro _
        simp only [runAdvances, hmv, htail]
        have : s.current + a + l'.sum = s.current + (a :: l').sum := by
          rw [List.sum_cons]; ring
        rw [this]
        simp
      · intro hnof
        rw [List.sum_cons] at hnof
        omega
    · -- no fire in the first call
      have hmv : MoveTimeForward s a =
          some ({ s with current := s.current + a }, []) := by
        rw [MoveTimeForward_nilQueue hq]
        exact msl.2 (by omega)
      have hih := ih { s with current := s.current + a } i t hl hoth ha
        hcb hb hp hn (by simpa using by omega) (by simpa using hQ)
        (by simpa using hq) (fun b hb => hnn b (List.mem_cons_of_mem _ hb))
      have harith : s.current + a + l'.sum = s.current + (a :: l').sum := by
        rw [List.sum_cons]; ring
      constructor
      · intro hfire
        rw [List.sum_cons] at hfire
        simp only [runAdvances, hmv,
          hih.1 (by simpa using by omega)]
        rw [harith]
        simp
      · intro hnof
        rw [List.sum_cons] at hnof
        simp only [runAdvances, hmv,
          hih.2 (by simpa using by omega)]
        rw [harith]
        simp

/-- C5: a single-shot timer with valid period, started at the current
time (`next = now + period`) in a state where it is the only allocated
slot, over any sequence of nonnegative advance amounts: if the total
reaches the period the callback is invoked exactly once (the run's
whole trace is that one event) and the timer ends inactive
(`next = 0`); if not, it is not invoked at all.  Since this holds for
every such sequence, no continuation of advance calls can ever make it
fire a second time without an explicit restart. -/
theorem C5_singleShot_fires_once (s : FT) (i : Nat) (t : Timer)
    (l : List Int) (hl : s.timers[i]? = some t)
    (hoth : ∀ j u, j ≠ i → s.timers[j]? = some u → u.allocated = false)
    (ha : t.allocated = true) (hcb : t.callback = CbAct.record)
    (hb : t.behavior = Behavior.SingleShot) (hp : 0 < t.period)
    (hcur : 0 ≤ s.current) (hstart : t.next = s.current + t.period)
    (hQ : 0 < s.sysTickPeriod) (hq : s.pendQueue = [])
    (hnn : ∀ a ∈ l, 0 ≤ a) :
    (t.period ≤ l.sum →
      runAdvances s l = some ({ s with
        current := s.current + l.sum,
        timers := (s.timers.set i { t with next := 0 }) },
        [Event.timerFired t.handle t.context])) ∧
    (l.sum < t.period →
      runAdvances s l = some ({ s with current := s.current + l.sum },
        [])) := by
  have hrun := runAdvances_singleShot l s i t hl hoth ha hcb hb hp
    (by omega) (by omega) hQ hq hnn
  exact ⟨fun hfire => hrun.1 (by omega), fun hnof => hrun.2 (by omega)⟩

end FakeTimers

namespace FakeTimers

/-- The single-shot timer for the C5 witness: period 20, started at
time 0 (`next = 20`). -/
def c5Timer : Timer :=
  { name := 0, period := 20, behavior := Behavior.SingleShot,
    context := 9, callback := CbAct.record, handle := 1,
    allocated := true, next := 20 }

/-- The start state for the C5 witness: quantum 10, only `c5Timer`. -/
def c5State : FT :=
  { timers := [c5Timer], sysTickPeriod := 10, current := 0,
    pendQueue := [] }

/-- C5 witness: advancing by 25 then by 100 (total 125 ≥ period 20)
fires the single-shot timer exactly once over the whole run and leaves
it inactive. -/
theorem C5_witness :
    runAdvances c5State [25, 100] = some ({ c5State with
      current := c5State.current + ([25, 100] : List Int).sum,
      timers := (c5State.timers.set 0 { c5Timer with next := 0 }) },
      [Event.timerFired c5Timer.handle c5Timer.context]) :=
  (C5_singleShot_fires_once c5State 0 c5Timer [25, 100] (by decide)
    (by
      intro j u hj hu
      rw [List.getElem?_eq_none (by simp [c5State]; omega)] at hu
      exact Option.noConfusion hu)
    (by decide) (by decide) (by decide) (by decide) (by decide)
    (by decide) (by decide) (by decide) (by decide)).1 (by decide)

end FakeTimers

namespace FakeTimers


/-- One unfolding step of the stepping loop, packaged: a positive
remainder advances the clock by `min(remaining, quantum)`, sweeps, and
continues. -/
theorem moveLoop_step (s : FT) (r : Int) (hr : 0 < r)
    (hq : ¬ s.sysTickPeriod ≤ 0) (s1 : FT) (e1 : List Event)
    (hsw : sweep { s with
      current := s.current + min r s.sysTickPeriod } = some (s1, e1))
    (s2 : FT) (e2 : List Event)
    (hml : moveLoop s1 (r - min r s.sysTickPeriod) = some (s2, e2)) :
    moveLoop s r = some (s2, e1 ++ e2) := by
  rw [moveLoop_eq, if_pos hr, if_neg hq, hsw]
  show (match moveLoop s1 (r - min r s.sysTickPeriod) with
        | none => none
        | some (s3, evs2) => some (s3, e1 ++ evs2)) = some (s2, e1 ++ e2)
  rw [hml]

/-- The stepping loop, advanced by exactly `m` quanta, over a state
whose only allocated slot is an armed AutoReload `record`-callback
timer with period `k` quanta, currently `g` quanta from its due time
(`1 ≤ g ≤ k`).  It fires once every `k` quanta: the trace is `cnt`
copies of the callback event and the slot ends `gap'` quanta from its
next due time, where `g + cnt * k = m + gap'` and `1 ≤ gap' ≤ k`. -/
theorem moveLoop_autoReload : ∀ (m : Nat) (s : FT) (i : Nat) (t : Timer)
    (k g : Nat), s.timers[i]? = some t →
    (∀ j u, j ≠ i → s.timers[j]? = some u → u.allocated = false) →
    t.allocated = true → t.callback = CbAct.record →
    t.behavior = Behavior.AutoReload →
    t.period = s.sysTickPeriod * k → 1 ≤ k →
    t.next = s.current + s.sysTickPeriod * g → 1 ≤ g → g ≤ k →
    0 < s.sysTickPeriod → 0 ≤ s.current →
    ∃ cnt gap', 1 ≤ gap' ∧ gap' ≤ k ∧ g + cnt * k = m + gap' ∧
      moveLoop s (s.sysTickPeriod * m) = some ({ s with
        current := s.current + s.sysTickPeriod * m,
        timers := (s.timers.set i { t with
          next := s.current + s.sysTickPeriod * m +
            s.sysTickPeriod * gap' }) },
        List.replicate cnt (Event.timerFired t.handle t.context)) := by
  intro m
  induction m with
  | zero =>
    intro s i t k g hl hoth ha hcb hb hP hk hnext hg1 hgk hQ hcur
    have hi : i < s.timers.length := by
      by_contra hcon
      rw [List.getElem?_eq_none (by omega)] at hl
      exact Option.noConfusion hl
    refine ⟨0, g, hg1, hgk, by omega, ?_⟩
    have h0 : s.sysTickPeriod * ((0 : Nat) : Int) = 0 := by simp
    rw [h0, moveLoop_eq, if_neg (by omega)]
    have hval : s.current + (0 : Int) + s.sysTickPeriod * (g : Int) =
        t.next := by
      rw [hnext]; ring
    have htt : s.timers[i] = t := by
      have := List.getElem?_eq_getElem hi
      rw [hl] at this
      exact (Option.some_inj.mp this).symm
    have hset : s.timers.set i { t with
        next := s.current + (0 : Int) + s.sysTickPeriod * (g : Int) } =
        s.timers := by
      rw [hval, show ({ t with next := t.next } : Timer) = t from rfl,
        ← htt, list_set_getElem_self s.timers i hi]
    simp only [Nat.cast_zero, mul_zero, add_zero] at hset ⊢
    rw [hset]
    simp [List.replicate]
  | succ m ih =>
    intro s i t k g hl hoth ha hcb hb hP hk hnext hg1 hgk hQ hcur
    have hi : i < s.timers.length := by
      by_contra hcon
      rw [List.getElem?_eq_none (by omega)] at hl
      exact Option.noConfusion hl
    have hr : 0 < s.sysTickPeriod * (((m + 1 : Nat)) : Int) := by
      apply mul_pos hQ
      exact_mod_cast Nat.succ_pos m
    have hQler : s.sysTickPeriod ≤
        s.sysTickPeriod * (((m + 1 : Nat)) : Int) := by
      nth_rewrite 1 [show s.sysTickPeriod = s.sysTickPeriod * 1 by ring]
      apply mul_le_mul_of_nonneg_left _ hQ.le
      exact_mod_cast Nat.succ_le_succ (Nat.zero_le m)
    have hmin : min (s.sysTickPeriod * (((m + 1 : Nat)) : Int))
        s.sysTickPeriod = s.sysTickPeriod := min_eq_right hQler
    have hrem : s.sysTickPeriod * (((m + 1 : Nat)) : Int) -
        s.sysTickPeriod = s.sysTickPeriod * ((m : Nat) : Int) := by
      push_cast
      ring
    have hnostop : ∀ u, s.timers[i]? = some u →
        u.callback = CbAct.stopSelf → u.handle = i + 1 := by
      intro u hu hcbu
      rw [hl] at hu
      obtain rfl := Option.some_inj.mp hu
      rw [hcb] at hcbu
      exact CbAct.noConfusion hcbu
    by_cases hg : g = 1
    · -- due at this quantum: fire and re-arm k quanta ahead
      subst hg
      have hQg : s.sysTickPeriod * ((1 : Nat) : Int) = s.sysTickPeriod := by
        push_cast
        ring
      have hdue : t.next ≤ s.current + s.sysTickPeriod := by
        rw [hnext, hQg]
      have hswbase : sweep { s with
          current := s.current + s.sysTickPeriod } =
          some ({ s with
            current := s.current + s.sysTickPeriod,
            timers := (s.timers.set i { t with next := s.current + s.sysTickPeriod + t.period }) },
            [Event.timerFired t.handle t.context]) := by
        rw [sweep_only { s with current := s.current + s.sysTickPeriod } i
          (by simpa using hi) hoth hnostop,
          considerFiringTimer_fire
            { s with current := s.current + s.sysTickPeriod } i t hl ha
            (by
              rw [hP]
              exact mul_pos hQ (by exact_mod_cast hk))
            (by
              rw [hnext, hQg]
              omega)
            (by simpa using hdue) hcb]
        rw [hb]
        rfl
      obtain ⟨cnt2, gap2, hgp1, hgpk, hrel, hml⟩ := ih
        { s with
          current := s.current + s.sysTickPeriod,
          timers := (s.timers.set i { t with next := s.current + s.sysTickPeriod + t.period }) } i
        { t with next := s.current + s.sysTickPeriod + t.period } k k
        (by
          show (s.timers.set i _)[i]? = _
          rw [List.getElem?_set_eq_of_lt _ hi])
        (by
          intro j u hj hu
          refine hoth j u hj ?_
          rw [← List.getElem?_set_ne (fun hij => hj hij.symm)
            (l := s.timers)
            (a := { t with next := s.current + s.sysTickPeriod + t.period })]
          exact hu)
        ha hcb hb (by simpa using hP) hk
        (by
          show s.current + s.sysTickPeriod + t.period =
            s.current + s.sysTickPeriod + s.sysTickPeriod * (k : Int)
          rw [hP])
        hk le_rfl (by simpa using hQ) (by show 0 ≤ s.current + _; omega)
      refine ⟨cnt2 + 1, gap2, hgp1, hgpk, ?_, ?_⟩
      · have hmul : (cnt2 + 1) * k = cnt2 * k + k := by ring
        omega
      · have hml2 : moveLoop
            { timers := (s.timers.set i { t with next := s.current + s.sysTickPeriod + t.period }),
              sysTickPeriod := s.sysTickPeriod,
              current := s.current + s.sysTickPeriod,
              pendQueue := s.pendQueue }
            (s.sysTickPeriod * (((m + 1 : Nat)) : Int) -
              min (s.sysTickPeriod * (((m + 1 : Nat)) : Int))
                s.sysTickPeriod) =
            some ({ timers := ((s.timers.set i { t with next := s.current + s.sysTickPeriod + t.period }).set i { t with next := s.current + s.sysTickPeriod + s.sysTickPeriod * ((m : Nat) : Int) + s.sysTickPeriod * ((gap2 : Nat) : Int) }),
                    sysTickPeriod := s.sysTickPeriod,
                    current := s.current + s.sysTickPeriod + s.sysTickPeriod * ((m : Nat) : Int),
                    pendQueue := s.pendQueue },
              List.replicate cnt2
                (Event.timerFired t.handle t.context)) := by
          rw [hmin, hrem]
          exact hml
        have hswmin : sweep { s with
            current := s.current +
              min (s.sysTickPeriod * (((m + 1 : Nat)) : Int))
                s.sysTickPeriod } =
            some ({ s with
              current := s.current + s.sysTickPeriod,
              timers := (s.timers.set i { t with next := s.current + s.sysTickPeriod + t.period }) },
              [Event.timerFired t.handle t.context]) := by
          rw [hmin]
          exact hswbase
        have hstep := moveLoop_step s
          (s.sysTickPeriod * (((m + 1 : Nat)) : Int)) hr (by omega)
          _ _ hswmin _ _ hml2
        rw [hstep]
        have hA : s.current + s.sysTickPeriod +
            s.sysTickPeriod * ((m : Nat) : Int) +
            s.sysTickPeriod * ((gap2 : Nat) : Int) =
            s.current + s.sysTickPeriod * (((m + 1 : Nat)) : Int) +
            s.sysTickPeriod * ((gap2 : Nat) : Int) := by
          push_cast
          ring
        have hB : s.current + s.sysTickPeriod +
            s.sysTickPeriod * ((m : Nat) : Int) =
            s.current + s.sysTickPeriod * (((m + 1 : Nat)) : Int) := by
          push_cast
          ring
        rw [List.set_set, hA, hB, List.replicate_succ]
        rfl
    · -- not yet due: skip this quantum, gap shrinks by one
      have hg2 : 2 ≤ g := by omega
      have hnotdue : s.current + s.sysTickPeriod < t.next := by
        rw [hnext]
        have h1g : (1 : Int) < (g : Int) := by exact_mod_cast hg2
        have := (mul_lt_mul_left hQ).mpr h1g
        omega
      have hswbase : sweep { s with
          current := s.current + s.sysTickPeriod } =
          some ({ s with current := s.current + s.sysTickPeriod },
            []) := by
        rw [sweep_only { s with current := s.current + s.sysTickPeriod } i
          (by simpa using hi) hoth hnostop]
        exact considerFiringTimer_skip _ i t hl
          (Or.inr (Or.inr (Or.inr (by simpa using hnotdue))))
      obtain ⟨cnt2, gap2, hgp1, hgpk, hrel, hml⟩ := ih
        { s with current := s.current + s.sysTickPeriod } i t k (g - 1)
        hl hoth ha hcb hb (by simpa using hP) hk
        (by
          show t.next = s.current + s.sysTickPeriod +
            s.sysTickPeriod * ((g - 1 : Nat) : Int)
          rw [hnext, Nat.cast_sub (by omega)]
          push_cast
          ring)
        (by omega) (by omega) (by simpa using hQ)
        (by show 0 ≤ s.current + _; omega)
      refine ⟨cnt2, gap2, hgp1, hgpk, by omega, ?_⟩
      have hml2 : moveLoop
          { timers := s.timers,
            sysTickPeriod := s.sysTickPeriod,
            current := s.current + s.sysTickPeriod,
            pendQueue := s.pendQueue }
          (s.sysTickPeriod * (((m + 1 : Nat)) : Int) -
            min (s.sysTickPeriod * (((m + 1 : Nat)) : Int))
              s.sysTickPeriod) =
          some ({ timers := (s.timers.set i { t with next := s.current + s.sysTickPeriod + s.sysTickPeriod * ((m : Nat) : Int) + s.sysTickPeriod * ((gap2 : Nat) : Int) }),
                  sysTickPeriod := s.sysTickPeriod,
                  current := s.current + s.sysTickPeriod + s.sysTickPeriod * ((m : Nat) : Int),
                  pendQueue := s.pendQueue },
            List.replicate cnt2
              (Event.timerFired t.handle t.context)) := by
        rw [hmin, hrem]
        exact hml
      have hswmin : sweep { s with
          current := s.current +
            min (s.sysTickPeriod * (((m + 1 : Nat)) : Int))
              s.sysTickPeriod } =
          some ({ s with current := s.current + s.sysTickPeriod },
            []) := by
        rw [hmin]
        exact hswbase
      have hstep := moveLoop_step s
        (s.sysTickPeriod * (((m + 1 : Nat)) : Int)) hr (by omega)
        _ _ hswmin _ _ hml2
      rw [hstep]
      have hA : s.current + s.sysTickPeriod +
          s.sysTickPeriod * ((m : Nat) : Int) +
          s.sysTickPeriod * ((gap2 : Nat) : Int) =
          s.current + s.sysTickPeriod * (((m + 1 : Nat)) : Int) +
          s.sysTickPeriod * ((gap2 : Nat) : Int) := by
        push_cast
        ring
      have hB : s.current + s.sysTickPeriod +
          s.sysTickPeriod * ((m : Nat) : Int) =
          s.current + s.sysTickPeriod * (((m + 1 : Nat)) : Int) := by
        push_cast
        ring
      rw [hA, hB]
      simp

end FakeTimers

namespace FakeTimers

/-- One unfolding step of `runAdvances`, packaged. -/
theorem runAdvances_step (s : FT) (a : Int) (l : List Int) (s1 : FT)
    (e1 : List Event) (h1 : MoveTimeForward s a = some (s1, e1))
    (s2 : FT) (e2 : List Event) (h2 : runAdvances s1 l = some (s2, e2)) :
    runAdvances s (a :: l) = some (s2, e1 ++ e2) := by
  show (match MoveTimeForward s a with
        | none => none
        | some (s1', evs) =>
          match runAdvances s1' l with
          | none => none
          | some (s2', evs2) => some (s2', evs ++ evs2)) = _
  rw [h1]
  show (match runAdvances s1 l with
        | none => none
        | some (s2', evs2) => some (s2', e1 ++ evs2)) = _
  rw [h2]

/-- Setting a slot's `next` back to its current value is a no-op. -/
theorem set_next_self (s : FT) (i : Nat) (t : Timer)
    (hi : i < s.timers.length) (hl : s.timers[i]? = some t) (X : Int)
    (hX : X = t.next) : s.timers.set i { t with next := X } = s.timers := by
  have htt : s.timers[i] = t := by
    have := List.getElem?_eq_getElem hi
    rw [hl] at this
    exact (Option.some_inj.mp this).symm
  rw [hX, show ({ t with next := t.next } : Timer) = t from rfl, ← htt,
    list_set_getElem_self s.timers i hi]

/-- A run of advance calls, each a whole number of quanta, over a
state whose only allocated slot is an armed AutoReload
`record`-callback timer: the trace is `cnt` copies of the callback
event, with `g + cnt * k = M + gap'` for the total advance of `M`
quanta. -/
theorem runAdvances_autoReload : ∀ (l : List Int) (s : FT) (i : Nat)
    (t : Timer) (k g : Nat), s.timers[i]? = some t →
    (∀ j u, j ≠ i → s.timers[j]? = some u → u.allocated = false) →
    t.allocated = true → t.callback = CbAct.record →
    t.behavior = Behavior.AutoReload →
    t.period = s.sysTickPeriod * k → 1 ≤ k →
    t.next = s.current + s.sysTickPeriod * g → 1 ≤ g → g ≤ k →
    0 < s.sysTickPeriod → 0 ≤ s.current → s.pendQueue = [] →
    (∀ a ∈ l, ∃ m : Nat, a = s.sysTickPeriod * m) →
    ∃ M cnt gap', 1 ≤ gap' ∧ gap' ≤ k ∧ g + cnt * k = M + gap' ∧
      l.sum = s.sysTickPeriod * (M : Int) ∧
      runAdvances s l = some ({ s with
        current := s.current + s.sysTickPeriod * M,
        timers := (s.timers.set i { t with next := s.current + s.sysTickPeriod * (M : Int) + s.sysTickPeriod * (gap' : Int) }) },
        List.replicate cnt (Event.timerFired t.handle t.context)) := by
  intro l
  induction l with
  | nil =>
    intro s i t k g hl hoth ha hcb hb hP hk hnext hg1 hgk hQ hcur hq _
    have hi : i < s.timers.length := by
      by_contra hcon
      rw [List.getElem?_eq_none (by omega)] at hl
      exact Option.noConfusion hl
    refine ⟨0, 0, g, hg1, hgk, by omega, by simp, ?_⟩
    have hset := set_next_self s i t hi hl
      (s.current + s.sysTickPeriod * ((0 : Nat) : Int) +
        s.sysTickPeriod * (g : Int))
      (by rw [hnext]; push_cast; ring)
    rw [hset]
    show some (s, ([] : List Event)) = _
    simp
  | cons a l' ih =>
    intro s i t k g hl hoth ha hcb hb hP hk hnext hg1 hgk hQ hcur hq hmult
    have hi : i < s.timers.length := by
      by_contra hcon
      rw [List.getElem?_eq_none (by omega)] at hl
      exact Option.noConfusion hl
    obtain ⟨m, rfl⟩ := hmult a (List.mem_cons_self a l')
    obtain ⟨cnt1, gap1, hg11, hg1k, hrel1, hml1⟩ :=
      moveLoop_autoReload m s i t k g hl hoth ha hcb hb hP hk hnext hg1
        hgk hQ hcur
    have hmv : MoveTimeForward s (s.sysTickPeriod * (m : Int)) =
        some ({ s with
          current := s.current + s.sysTickPeriod * (m : Int),
          timers := (s.timers.set i { t with next := s.current + s.sysTickPeriod * (m : Int) + s.sysTickPeriod * (gap1 : Int) }) },
          List.replicate cnt1 (Event.timerFired t.handle t.context)) := by
      rw [MoveTimeForward_nilQueue hq]
      exact hml1
    obtain ⟨M2, cnt2, gap2, hg21, hg2k, hrel2, hsum2, hrun2⟩ := ih
      { s with
        current := s.current + s.sysTickPeriod * (m : Int),
        timers := (s.timers.set i { t with next := s.current + s.sysTickPeriod * (m : Int) + s.sysTickPeriod * (gap1 : Int) }) } i
      { t with next := s.current + s.sysTickPeriod * (m : Int) +
          s.sysTickPeriod * (gap1 : Int) } k gap1
      (by
        show (s.timers.set i _)[i]? = _
        rw [List.getElem?_set_eq_of_lt _ hi])
      (by
        intro j u hj hu
        refine hoth j u hj ?_
        rw [← List.getElem?_set_ne (fun hij => hj hij.symm)
          (l := s.timers)
          (a := { t with next := s.current + s.sysTickPeriod * (m : Int) + s.sysTickPeriod * (gap1 : Int) })]
        exact hu)
      ha hcb hb (by simpa using hP) hk rfl hg11 hg1k
      (by simpa using hQ)
      (by
        show 0 ≤ s.current + s.sysTickPeriod * (m : Int)
        have : 0 ≤ s.sysTickPeriod * (m : Int) :=
          mul_nonneg hQ.le (by positivity)
        omega)
      (by simpa using hq)
      (by
        intro b hb2
        obtain ⟨mb, hmb⟩ := hmult b (List.mem_cons_of_mem _ hb2)
        exact ⟨mb, by simpa using hmb⟩)
    have hrun2e : runAdvances
        { s with
          current := s.current + s.sysTickPeriod * (m : Int),
          timers := (s.timers.set i { t with next := s.current + s.sysTickPeriod * (m : Int) + s.sysTickPeriod * (gap1 : Int) }) }
        l' =
        some ({ timers := ((s.timers.set i { t with next := s.current + s.sysTickPeriod * (m : Int) + s.sysTickPeriod * (gap1 : Int) }).set i { t with next := s.current + s.sysTickPeriod * (m : Int) + s.sysTickPeriod * (M2 : Int) + s.sysTickPeriod * (gap2 : Int) }),
                sysTickPeriod := s.sysTickPeriod,
                current := s.current + s.sysTickPeriod * (m : Int) +
                  s.sysTickPeriod * (M2 : Int),
                pendQueue := s.pendQueue },
          List.replicate cnt2 (Event.timerFired t.handle t.context)) :=
      hrun2
    refine ⟨m + M2, cnt1 + cnt2, gap2, hg21, hg2k, ?_, ?_, ?_⟩
    · have hmul : (cnt1 + cnt2) * k = cnt1 * k + cnt2 * k := by ring
      omega
    · show s.sysTickPeriod * (m : Int) + l'.sum = _
      rw [hsum2]
      push_cast
      ring
    · have hstep := runAdvances_step s (s.sysTickPeriod * (m : Int)) l'
        _ _ hmv _ _ hrun2e
      rw [hstep]
      have hA : s.current + s.sysTickPeriod * (m : Int) +
          s.sysTickPeriod * (M2 : Int) +
          s.sysTickPeriod * (gap2 : Int) =
          s.current + s.sysTickPeriod * ((m + M2 : Nat) : Int) +
          s.sysTickPeriod * (gap2 : Int) := by
        push_cast
        ring
      have hB : s.current + s.sysTickPeriod * (m : Int) +
          s.sysTickPeriod * (M2 : Int) =
          s.current + s.sysTickPeriod * ((m + M2 : Nat) : Int) := by
        push_cast
        ring
      rw [List.set_set, hA, hB, ← List.replicate_add]

end FakeTimers

namespace FakeTimers

theorem fireCount_replicate (n h c : Nat) :
    fireCount (List.replicate n (Event.timerFired h c)) = n := by
  induction n with
  | zero => rfl
  | succ n ih =>
    rw [List.replicate_succ, fireCount, List.filter_cons]
    simp only [Event.isFire, if_pos]
    rw [List.length_cons]
    rw [fireCount] at ih
    rw [ih]

/-- C4 counterexample: quantum 10, period-10 AutoReload timer created
and started at time 0.  The advance sequence [7, 7, 6] sums to 20, so
the claim demands `floor(20 / 10) = 2` firings, but the code fires
only once: the 7ns steps do not land on the due boundary; the timer
fires late at t=14 and re-anchors to 24, which t=20 never reaches. -/
theorem C4_counterexample :
    (TimerCreate (FT.mk0 10) 0 10 Behavior.AutoReload 0 CbAct.record).1
      = 1 ∧
    ((TimerStart (TimerCreate (FT.mk0 10) 0 10 Behavior.AutoReload 0
        CbAct.record).2 1).map
      (fun r => (runAdvances r.2 [7, 7, 6]).map (fun q => fireCount q.2)))
      = some (some 1) ∧
    ((7 + 7 + 6 : Int) / 10 = 2) :=
  ⟨by decide, by decide, by decide⟩

/-- C4 as amended: an AutoReload timer with period a positive multiple
of the quantum, started at the current time, its slot the only
allocated one, advanced by amounts that are each a whole (nonnegative)
number of quanta: the callback is invoked exactly
`floor(total / period)` times (and the trace consists of exactly those
invocations). -/
theorem C4_autoReload_count (s : FT) (i : Nat) (t : Timer)
    (l : List Int) (hl : s.timers[i]? = some t)
    (hoth : ∀ j u, j ≠ i → s.timers[j]? = some u → u.allocated = false)
    (ha : t.allocated = true) (hcb : t.callback = CbAct.record)
    (hb : t.behavior = Behavior.AutoReload)
    (hP : ∃ k : Nat, 1 ≤ k ∧ t.period = s.sysTickPeriod * k)
    (hstart : t.next = s.current + t.period)
    (hQ : 0 < s.sysTickPeriod) (hcur : 0 ≤ s.current)
    (hq : s.pendQueue = [])
    (hmult : ∀ a ∈ l, ∃ m : Nat, a = s.sysTickPeriod * m) :
    ∃ s' evs, runAdvances s l = some (s', evs) ∧
      (fireCount evs : Int) = l.sum / t.period ∧
      evs = List.replicate (fireCount evs)
        (Event.timerFired t.handle t.context) := by
  obtain ⟨k, hk, hPk⟩ := hP
  obtain ⟨M, cnt, gap', hg1, hgk, hrel, hsum, hrun⟩ :=
    runAdvances_autoReload l s i t k k hl hoth ha hcb hb hPk hk
      (by rw [hstart, hPk]) hk le_rfl hQ hcur hq hmult
  have hdiv : M / k = cnt := by
    have hcm : k * cnt = cnt * k := Nat.mul_comm k cnt
    have hMk : M = (k - gap') + k * cnt := by omega
    rw [hMk, Nat.add_mul_div_left _ _ (by omega : 0 < k),
      Nat.div_eq_of_lt (by omega)]
    omega
  refine ⟨_, _, hrun, ?_, ?_⟩
  · rw [fireCount_replicate, hsum, hPk,
      Int.mul_ediv_mul_of_pos _ _ hQ, ← hdiv]
    exact_mod_cast (Int.ofNat_ediv M k).symm
  · rw [fireCount_replicate]

/-- The AutoReload timer for the C4 witness: period 20 = 2 quanta,
started at time 0 (`next = 20`). -/
def c4Timer : Timer :=
  { name := 0, period := 20, behavior := Behavior.AutoReload,
    context := 5, callback := CbAct.record, handle := 1,
    allocated := true, next := 20 }

/-- The start state for the C4 witness: quantum 10, only `c4Timer`. -/
def c4State : FT :=
  { timers := [c4Timer], sysTickPeriod := 10, current := 0,
    pendQueue := [] }

/-- C4 amended-claim witness: advancing by 30, 20, 0 ns (each a whole
number of quanta, total 50) fires the period-20 AutoReload timer
exactly `floor(50 / 20) = 2` times. -/
theorem C4_witness :
    ∃ s' evs, runAdvances c4State [30, 20, 0] = some (s', evs) ∧
      (fireCount evs : Int) = ([30, 20, 0] : List Int).sum / 20 ∧
      evs = List.replicate (fireCount evs)
        (Event.timerFired c4Timer.handle c4Timer.context) :=
  C4_autoReload_count c4State 0 c4Timer [30, 20, 0] (by decide)
    (by
      intro j u hj hu
      rw [List.getElem?_eq_none (by simp [c4State]; omega)] at hu
      exact Option.noConfusion hu)
    (by decide) (by decide) (by decide) ⟨2, by decide, by decide⟩
    (by decide) (by decide) (by decide) (by decide)
    (by
      intro a haa
      simp only [List.mem_cons, List.not_mem_nil, or_false] at haa
      rcases haa with rfl | rfl | rfl
      · exact ⟨3, by decide⟩
      · exact ⟨2, by decide⟩
      · exact ⟨0, by decide⟩)

end FakeTimers
